import Mathlib

/-
  Verification development for the desilo-core calendar pipeline:
  event-block parsing (src/unnamed/part_002), date/time normalization and
  dispatch (src/ui/components/CalendarEventRenderer.tsx and the
  CalendarButton component in src/unnamed/part_001).

  Strings are modelled as `List Char`.  JavaScript regular-expression
  behaviour is embedded as executable scanning functions; each definition
  carries a comment naming the source construct it embeds.
-/

namespace DeSilo

/-- Coerce a Lean string literal to the `List Char` representation. -/
def str (s : String) : List Char := s.data

/-- The JavaScript `\s` character class (which coincides with the set trimmed
by `String.prototype.trim`): tab, LF, VT, FF, CR, space, NBSP, and the
Unicode space separators, line separators and BOM. -/
def jsWs (c : Char) : Bool :=
  c = '\t' ∨ c = '\n' ∨ c = '\x0b' ∨ c = '\x0c' ∨ c = '\r' ∨ c = ' ' ∨
  c = ' ' ∨ c = ' ' ∨ (0x2000 ≤ c.toNat ∧ c.toNat ≤ 0x200A) ∨
  c = ' ' ∨ c = ' ' ∨ c = ' ' ∨ c = ' ' ∨
  c = '　' ∨ c = '﻿'

/-- JavaScript line terminators, the characters `.` does not match. -/
def jsLineTerm (c : Char) : Bool :=
  c = '\n' ∨ c = '\r' ∨ c = ' ' ∨ c = ' '

/-- ASCII lower-casing on code points, the simple case folding a JavaScript
case-insensitive regular expression applies to the ASCII patterns used here. -/
def lowerVal (c : Char) : Nat :=
  if 65 ≤ c.toNat ∧ c.toNat ≤ 90 then c.toNat + 32 else c.toNat

/-- Case-insensitive character comparison (the `i` regex flag). -/
def ciEq (a b : Char) : Bool := lowerVal a = lowerVal b

/-- Decimal digits of a natural number, as produced by JavaScript
`Number.prototype.toString` on the non-negative integers used here. -/
def natDigits (n : Nat) : List Char := Nat.toDigits 10 n

/-- JavaScript `String(i)` for an integer value. -/
def intStr (i : Int) : List Char :=
  if i < 0 then '-' :: natDigits i.natAbs else natDigits i.natAbs

/-- JavaScript `String(i).padStart(2, '0')`. -/
def pad2 (i : Int) : List Char :=
  let s := intStr i
  if s.length < 2 then '0' :: s else s

/-- A local calendar date as exposed by a JavaScript `Date`:
`getFullYear()`, `getMonth() + 1`, `getDate()`. -/
structure Ymd where
  year : Int
  month : Int
  day : Int
deriving DecidableEq, Repr

/-- Days since 1970-01-01 of a proleptic Gregorian date (month is 1-based).
This is the arithmetic behind JavaScript `MakeDay`. -/
def daysFromCivil (y m d : Int) : Int :=
  let y := if m ≤ 2 then y - 1 else y
  let era := y.fdiv 400
  let yoe := y - era * 400
  let mp := if 2 < m then m - 3 else m + 9
  let doy := (153 * mp + 2).fdiv 5 + d - 1
  let doe := yoe * 365 + yoe.fdiv 4 - yoe.fdiv 100 + doy
  era * 146097 + doe - 719468

/-- Inverse of `daysFromCivil`: the proleptic Gregorian date of a day number. -/
def civilFromDays (z0 : Int) : Ymd :=
  let z := z0 + 719468
  let era := z.fdiv 146097
  let doe := z - era * 146097
  let yoe := (doe - doe.fdiv 1460 + doe.fdiv 36524 - doe.fdiv 146096).fdiv 365
  let y := yoe + era * 400
  let doy := doe - (365 * yoe + yoe.fdiv 4 - yoe.fdiv 100)
  let mp := (5 * doy + 2).fdiv 153
  let d := doy - (153 * mp + 2).fdiv 5 + 1
  let m := if mp < 10 then mp + 3 else mp - 9
  ⟨if m ≤ 2 then y + 1 else y, m, d⟩

/-- The date components produced by `new Date(y, m0, d)` (local time, at
midnight): two-digit years are mapped to 1900 + y, an out-of-range 0-based
month `m0` rolls the year, and an out-of-range day rolls the month. -/
def jsMakeDay (y m0 d : Int) : Ymd :=
  let y := if 0 ≤ y ∧ y ≤ 99 then y + 1900 else y
  let ym := y * 12 + m0
  let yy := ym.fdiv 12
  let mm := ym - yy * 12
  civilFromDays (daysFromCivil yy (mm + 1) 1 + d - 1)

/-- The ambient JavaScript date facilities that the code consults for inputs
this embedding does not compute itself: `parseGeneric s` is the local
calendar date of `new Date(s)` for a non-`YYYY-MM-DD` string (`none` when the
result is an Invalid Date), and `today` is the local date of `new Date()`. -/
structure JsDateEnv where
  parseGeneric : List Char → Option Ymd
  today : Ymd

/-- `takeWhile isDigit` / `dropWhile isDigit`, the greedy `\d*` step used by
the anchored shape tests below. -/
def spanDigits (s : List Char) : List Char × List Char :=
  (s.takeWhile Char.isDigit, s.dropWhile Char.isDigit)

/-- Numeric value of a decimal digit character. -/
def digitVal (c : Char) : Nat := c.toNat - 48

/-- JavaScript `parseInt` on a non-empty all-digit string. -/
def parseIntDigits (ds : List Char) : Nat :=
  ds.foldl (fun a c => a * 10 + digitVal c) 0

/-- The test `/^\d{4}-\d{2}-\d{2}$/.test(dateStr)`. -/
def isoShape (s : List Char) : Bool :=
  let (y, r1) := spanDigits s
  y.length = 4 &&
    match r1 with
    | '-' :: r2 =>
      let (mo, r3) := spanDigits r2
      mo.length = 2 &&
        match r3 with
        | '-' :: r4 =>
          let (d, r5) := spanDigits r4
          d.length = 2 && r5.isEmpty
        | _ => false
    | _ => false

/-- The test `/^\d{1,2}:\d{2}\s*(AM|PM)$/i.test(timeStr)`. -/
def ampmShape (s : List Char) : Bool :=
  let (h, r1) := spanDigits s
  (h.length = 1 || h.length = 2) &&
    match r1 with
    | ':' :: r2 =>
      let (mnts, r3) := spanDigits r2
      mnts.length = 2 &&
        match r3.dropWhile jsWs with
        | [a, m] => (ciEq a 'a' || ciEq a 'p') && ciEq m 'm'
        | _ => false
    | _ => false

/-- The test `/^\d{1,2}:\d{2}$/.test(timeStr)`. -/
def hmShape (s : List Char) : Bool :=
  let (h, r1) := spanDigits s
  (h.length = 1 || h.length = 2) &&
    match r1 with
    | ':' :: r2 =>
      let (mnts, r3) := spanDigits r2
      mnts.length = 2 && r3.isEmpty
    | _ => false

/-- Matching the tail `:\d{2}\s*(AM|PM)` of the unanchored pattern
`/(\d{1,2}):(\d{2})\s*(AM|PM)/i` at a fixed position; returns the minute
digits and whether the meridiem is PM. -/
def tryRestTime : List Char → Option (List Char × Bool)
  | ':' :: d1 :: d2 :: r =>
    if d1.isDigit && d2.isDigit then
      match r.dropWhile jsWs with
      | a :: m :: _ =>
        if (ciEq a 'a' || ciEq a 'p') && ciEq m 'm' then
          some ([d1, d2], ciEq a 'p')
        else none
      | _ => none
    else none
  | _ => none

/-- Attempting the full pattern `/(\d{1,2}):(\d{2})\s*(AM|PM)/i` at a fixed
position, with the greedy two-digit-then-one-digit hour backtracking. -/
def tryTimeAt : List Char → Option (List Char × List Char × Bool)
  | [] => none
  | a :: rest =>
    if a.isDigit then
      match rest with
      | b :: rest2 =>
        if b.isDigit then
          match tryRestTime rest2 with
          | some (mins, pm) => some ([a, b], mins, pm)
          | none =>
            match tryRestTime rest with
            | some (mins, pm) => some ([a], mins, pm)
            | none => none
        else
          match tryRestTime rest with
          | some (mins, pm) => some ([a], mins, pm)
          | none => none
      | [] => none
    else none

/-- The leftmost match of `normalizedTime.match(/(\d{1,2}):(\d{2})\s*(AM|PM)/i)`:
hour digits, minute digits, and whether the meridiem is PM. -/
def timeSearch : List Char → Option (List Char × List Char × Bool)
  | [] => none
  | c :: cs =>
    match tryTimeAt (c :: cs) with
    | some r => some r
    | none => timeSearch cs

end DeSilo

namespace DeSilo.ParseEvents

/-! Embedding of `src/unnamed/part_002` (`parseEventsFromContent`,
`stripEventBlocks`). -/

/-- The opening alternatives of `/---EVENTS?---([\s\S]*?)---END-EVENTS?---/g`.
At any one position at most one of the two spellings can match, so listing
both reproduces the greedy `S?`. -/
def openMarkers : List (List Char) := [str "---EVENTS---", str "---EVENT---"]

/-- The closing alternatives `---END-EVENTS?---`. -/
def closeMarkers : List (List Char) := [str "---END-EVENTS---", str "---END-EVENT---"]

/-- Case-sensitive prefix test, character by character (recursing on the
pattern, so it evaluates whenever the subject's first `pat.length`
characters are known). -/
def csPrefix (pat s : List Char) : Bool :=
  match pat with
  | [] => true
  | a :: as =>
    match s with
    | [] => false
    | b :: bs => a == b && csPrefix as bs

/-- Leftmost occurrence of one of the markers `ms` in `s`: returns the text
before the marker, the marker, and the text after it. -/
def findMarker (ms : List (List Char)) : List Char → Option (List Char × List Char × List Char)
  | [] => none
  | c :: cs =>
    match ms.find? (fun m => csPrefix m (c :: cs)) with
    | some m => some ([], m, (c :: cs).drop m.length)
    | none =>
      match findMarker ms cs with
      | some (pre, m, post) => some (c :: pre, m, post)
      | none => none

/-- The successive lazy matches of the block regular expression: the content
between each leftmost opening marker and the next closing marker after it.
`fuel` bounds the recursion; each match consumes both markers, so
`fuel = s.length` is always sufficient. -/
def extractBlocksGo : Nat → List Char → List (List Char)
  | 0, _ => []
  | fuel + 1, s =>
    match findMarker openMarkers s with
    | none => []
    | some (_, _, rest) =>
      match findMarker closeMarkers rest with
      | none => []
      | some (content, _, rest2) => content :: extractBlocksGo fuel rest2

/-- `eventsBlock.split(/(?=title:)/g)` cuts before every occurrence of
`title:`.  (JavaScript produces no cut at position 0; this version cuts there
too, emitting a leading empty segment that the subsequent
`filter((entry) => entry.trim())` removes in either case.) -/
def splitBeforeGo (pat acc : List Char) : List Char → List (List Char)
  | [] => [acc.reverse]
  | c :: cs =>
    if csPrefix pat (c :: cs) then acc.reverse :: splitBeforeGo pat [c] cs
    else splitBeforeGo pat (c :: acc) cs

/-- JavaScript `String.prototype.trim`. -/
def jsTrim (s : List Char) : List Char :=
  ((s.dropWhile jsWs).reverse.dropWhile jsWs).reverse

/-- Case-insensitive prefix test, character by character (recursing on the
pattern, like `csPrefix`). -/
def ciPrefix (pat s : List Char) : Bool :=
  match pat with
  | [] => true
  | a :: as =>
    match s with
    | [] => false
    | b :: bs => ciEq a b && ciPrefix as bs

/-- The text after the leftmost case-insensitive occurrence of `pat` in `s`,
`none` when there is no occurrence. -/
def findCIRest (pat : List Char) : List Char → Option (List Char)
  | [] => none
  | c :: cs =>
    if ciPrefix pat (c :: cs) then some ((c :: cs).drop pat.length)
    else findCIRest pat cs

/-- What `.` can consume: everything up to the first line terminator. -/
def takeLine (s : List Char) : List Char := s.takeWhile (fun c => !jsLineTerm c)

/-- `extractField`: match `new RegExp(field + ":\\s*(.*)", "i")` against the
entry and return the trimmed capture, or the empty string when there is no
match.  After the field name and colon, `\s*` greedily skips whitespace
(including line breaks) and `(.*)` captures to the end of that line. -/
def extractField (data field : List Char) : List Char :=
  match findCIRest (field ++ str ":") data with
  | none => []
  | some rest => jsTrim (takeLine (rest.dropWhile jsWs))

/-- The `ParsedEvent` record of the source.  The optional `originalLink` is
the empty string when the field is absent, exactly as `extractField`
produces it. -/
structure ParsedEvent where
  title : List Char
  date : List Char
  time : List Char
  location : List Char
  description : List Char
  originalLink : List Char
deriving DecidableEq, Repr

/-- Building the candidate record of one entry (lines 41-48 of the source). -/
def entryToEvent (eventData : List Char) : ParsedEvent :=
  { title := extractField eventData (str "title")
    date := extractField eventData (str "date")
    time := extractField eventData (str "time")
    location := extractField eventData (str "location")
    description := extractField eventData (str "description")
    originalLink := extractField eventData (str "originalLink") }

/-- The guard `if (event.title && event.date && event.time)`: a candidate is
kept only when the three required fields are non-empty strings. -/
def keepEvent (e : ParsedEvent) : Option ParsedEvent :=
  if e.title ≠ [] ∧ e.date ≠ [] ∧ e.time ≠ [] then some e else none

/-- The entries of one block: split before `title:` occurrences, keeping the
entries whose trimmed text is non-empty (`entry.trim()` truthiness). -/
def blockEntries (block : List Char) : List (List Char) :=
  (splitBeforeGo (str "title:") [] block).filter (fun en => !(jsTrim en).isEmpty)

/-- The records contributed by one delimited block. -/
def parseBlock (block : List Char) : List ParsedEvent :=
  (blockEntries block).filterMap (fun en => keepEvent (entryToEvent en))

/-- `parseEventsFromContent`. -/
def parseEventsFromContent (content : List Char) : List ParsedEvent :=
  (extractBlocksGo content.length content).flatMap parseBlock

/-- The successive replacements of
`content.replace(/---EVENTS?---[\s\S]*?---END-EVENTS?---/g, '')`: each
matched span is deleted and scanning resumes after it. -/
def stripGo : Nat → List Char → List Char
  | 0, s => s
  | fuel + 1, s =>
    match findMarker openMarkers s with
    | none => s
    | some (pre, _, rest) =>
      match findMarker closeMarkers rest with
      | none => s
      | some (_, _, rest2) => pre ++ stripGo fuel rest2

/-- `stripEventBlocks`. -/
def stripEventBlocks (content : List Char) : List Char :=
  stripGo content.length content

/-- Whether the block regular expression has a match in `s`. -/
def hasBlock (s : List Char) : Bool :=
  match findMarker openMarkers s with
  | none => false
  | some (_, _, rest) => (findMarker closeMarkers rest).isSome

/-- The span decomposition the global regular expression induces on `s`:
for each match, the unmatched text before it and the full matched span
(markers included), together with the unmatched tail. -/
def blockSpansGo : Nat → List Char → List (List Char × List Char) × List Char
  | 0, s => ([], s)
  | fuel + 1, s =>
    match findMarker openMarkers s with
    | none => ([], s)
    | some (pre, m1, rest) =>
      match findMarker closeMarkers rest with
      | none => ([], s)
      | some (content, m2, rest2) =>
        ((pre, m1 ++ content ++ m2) :: (blockSpansGo fuel rest2).1,
          (blockSpansGo fuel rest2).2)

/-- The span decomposition of `s` itself. -/
def blockSpans (s : List Char) : List (List Char × List Char) × List Char :=
  blockSpansGo s.length s

/-- Reassembling a span decomposition: the unmatched pieces and the matched
spans, interleaved in order. -/
def spansRebuild : List (List Char × List Char) × List Char → List Char
  | (ps, tail) => ps.foldr (fun p acc => p.1 ++ p.2 ++ acc) tail

/-- The text a span decomposition leaves after deleting every matched span. -/
def spansResidue : List (List Char × List Char) × List Char → List Char
  | (ps, tail) => ps.foldr (fun p acc => p.1 ++ acc) tail

end DeSilo.ParseEvents

namespace DeSilo

/-- The event passed to the components (`CalendarEvent` of the source);
`originalLink` is optional, and an absent link is indistinguishable from the
empty string in every use the code makes of it (all are falsy). -/
structure CalendarEvent where
  title : List Char
  date : List Char
  time : List Char
  location : List Char
  description : List Char
  originalLink : List Char
deriving DecidableEq, Repr

/-- The JSON body `{ email, event: { title, date, location, description, url } }`
both components POST to `/api/notifications/calendar-invite`. -/
structure InvitePayload where
  email : List Char
  title : List Char
  date : List Char
  location : List Char
  description : List Char
  url : List Char
deriving DecidableEq, Repr

/-- One settled `fetch` promise: `fulfilled ok` is a completed HTTP exchange
whose `response.ok` flag is `ok` (any HTTP status yields a fulfilled promise),
and `rejected` is a promise rejection (network/transport error). -/
inductive SettleResult where
  | fulfilled (ok : Bool)
  | rejected
deriving DecidableEq, Repr

/-- The attribution line: `curatedByText || Curated by (organizationName) AI
Assistant`.  A missing `curatedByText` prop and an empty string are both
falsy, so both select the default. -/
def byText (curatedByText organizationName : List Char) : List Char :=
  if curatedByText = [] then
    str "Curated by " ++ organizationName ++ str " AI Assistant"
  else curatedByText

/-- The composite description both components build:
`(byText)\n\n(event.description)\n\n(event.originalLink ? "View original event: " + link : '')`. -/
def mkDescription (curatedByText organizationName desc link : List Char) : List Char :=
  byText curatedByText organizationName ++ str "\n\n" ++ desc ++ str "\n\n" ++
    (if link ≠ [] then str "View original event: " ++ link else [])

end DeSilo

namespace DeSilo.CalendarButton

/-! Embedding of the single-event component in `src/unnamed/part_001`
(`CalendarButton`). -/

/-- `/^[^\s@]+@[^\s@]+\.[^\s@]+$/.test(value)`.  Since the character classes
exclude `@`, the pattern's `@` can only match the first `@` of the string;
the remainder matches `[^\s@]+\.[^\s@]+` exactly when it consists of
non-whitespace non-`@` characters and contains a dot that is neither its
first nor its last character. -/
def validateEmail (value : List Char) : Bool :=
  let A := value.takeWhile (fun c => c ≠ '@')
  match value.dropWhile (fun c => c ≠ '@') with
  | '@' :: R =>
    !A.isEmpty && A.all (fun c => !jsWs c) &&
      R.all (fun c => !jsWs c && c ≠ '@') &&
      ((R.drop 1).dropLast.contains '.')
  | _ => false

/-- `parseDate` (lines 53-71 of the source).  A strict `YYYY-MM-DD` string is
built with `new Date(year, month - 1, day)`; every other shape reaches
`new Date(dateStr)` (the three remaining branches are textually identical
calls), and an Invalid Date result falls back to `new Date()`. -/
def parseDate (env : JsDateEnv) (dateStr : List Char) : Ymd :=
  if isoShape dateStr then
    let (ys, r1) := spanDigits dateStr
    let (ms, r3) := spanDigits (r1.drop 1)
    let (ds, _) := spanDigits (r3.drop 1)
    jsMakeDay (parseIntDigits ys) ((parseIntDigits ms : Int) - 1) (parseIntDigits ds)
  else
    match env.parseGeneric dateStr with
    | some d => d
    | none => env.today

/-- `formatDisplayTime`: pass `H:MM AM/PM` through, convert 24-hour `H:MM`
to 12-hour with suffix, return anything else unchanged. -/
def formatDisplayTime (timeStr : List Char) : List Char :=
  if ampmShape timeStr then timeStr
  else if hmShape timeStr then
    let hs := timeStr.takeWhile Char.isDigit
    let mins := (timeStr.dropWhile Char.isDigit).drop 1
    let hour24 := parseIntDigits hs
    let hour12 := if hour24 = 0 then 12 else if hour24 > 12 then hour24 - 12 else hour24
    let ampm := if hour24 < 12 then str "AM" else str "PM"
    natDigits hour12 ++ str ":" ++ mins ++ str " " ++ ampm
  else timeStr

/-- `formatDateTime`: combine the parsed date with the normalized
re-parsed time into `(year)-(MM)-(DD)T(HH):(MM):00-06:00`; when the time
pattern has no match, fall back to `T12:00:00-06:00`. -/
def formatDateTime (env : JsDateEnv) (date time : List Char) : List Char :=
  let parsedDate := parseDate env date
  let datePart := intStr parsedDate.year ++ str "-" ++ pad2 parsedDate.month ++
    str "-" ++ pad2 parsedDate.day
  match timeSearch (formatDisplayTime time) with
  | none => datePart ++ str "T12:00:00-06:00"
  | some (hd, mins, pm) =>
    let hours0 := parseIntDigits hd
    let hours := if pm ∧ hours0 ≠ 12 then hours0 + 12
      else if ¬pm ∧ hours0 = 12 then 0 else hours0
    datePart ++ str "T" ++ pad2 hours ++ str ":" ++ mins ++ str ":00-06:00"

/-- The request body `handleAddToCalendar` builds (lines 135-144). -/
def mkPayload (env : JsDateEnv) (organizationName curatedByText email : List Char)
    (event : CalendarEvent) : InvitePayload :=
  { email := email
    title := str "[" ++ organizationName ++ str "] " ++ event.title
    date := formatDateTime env event.date event.time
    location := event.location
    description := mkDescription curatedByText organizationName
      event.description event.originalLink
    url := event.originalLink }

/-- The observable effect of one `handleAddToCalendar` invocation: the
request issued (if any) and the `onAddToCalendar` report (if any). -/
structure SingleDispatch where
  request : Option InvitePayload
  outcome : Option (Bool × List Char)
deriving DecidableEq, Repr

/-- `handleAddToCalendar`: a no-op unless `isValid` and not `isAdding`;
otherwise one POST is sent, `response.ok` selects the success report and
every other completion (non-ok response or rejection) is caught and reported
as the generic failure. -/
def handleAddToCalendar (env : JsDateEnv) (organizationName curatedByText email : List Char)
    (isValid isAdding : Bool) (event : CalendarEvent) (result : SettleResult) :
    SingleDispatch :=
  if !isValid || isAdding then ⟨none, none⟩
  else
    ⟨some (mkPayload env organizationName curatedByText email event),
      match result with
      | .fulfilled true => some (true, str "Calendar invite sent to " ++ email ++ str "!")
      | _ => some (false, str "Failed to add to calendar. Please try again.")⟩

end DeSilo.CalendarButton

namespace DeSilo.CalendarEventRenderer

/-! Embedding of the bulk component in
`src/ui/components/CalendarEventRenderer.tsx`. -/

/-- `validateEmail`, duplicated verbatim in this component. -/
def validateEmail (value : List Char) : Bool :=
  let A := value.takeWhile (fun c => c ≠ '@')
  match value.dropWhile (fun c => c ≠ '@') with
  | '@' :: R =>
    !A.isEmpty && A.all (fun c => !jsWs c) &&
      R.all (fun c => !jsWs c && c ≠ '@') &&
      ((R.drop 1).dropLast.contains '.')
  | _ => false

/-- `parseDate` (lines 48-66), duplicated verbatim in this component. -/
def parseDate (env : JsDateEnv) (dateStr : List Char) : Ymd :=
  if isoShape dateStr then
    let (ys, r1) := spanDigits dateStr
    let (ms, r3) := spanDigits (r1.drop 1)
    let (ds, _) := spanDigits (r3.drop 1)
    jsMakeDay (parseIntDigits ys) ((parseIntDigits ms : Int) - 1) (parseIntDigits ds)
  else
    match env.parseGeneric dateStr with
    | some d => d
    | none => env.today

/-- `formatDisplayTime` (lines 68-82), duplicated verbatim. -/
def formatDisplayTime (timeStr : List Char) : List Char :=
  if ampmShape timeStr then timeStr
  else if hmShape timeStr then
    let hs := timeStr.takeWhile Char.isDigit
    let mins := (timeStr.dropWhile Char.isDigit).drop 1
    let hour24 := parseIntDigits hs
    let hour12 := if hour24 = 0 then 12 else if hour24 > 12 then hour24 - 12 else hour24
    let ampm := if hour24 < 12 then str "AM" else str "PM"
    natDigits hour12 ++ str ":" ++ mins ++ str " " ++ ampm
  else timeStr

/-- `formatDateTime` (lines 84-106), duplicated verbatim. -/
def formatDateTime (env : JsDateEnv) (date time : List Char) : List Char :=
  let parsedDate := parseDate env date
  let datePart := intStr parsedDate.year ++ str "-" ++ pad2 parsedDate.month ++
    str "-" ++ pad2 parsedDate.day
  match timeSearch (formatDisplayTime time) with
  | none => datePart ++ str "T12:00:00-06:00"
  | some (hd, mins, pm) =>
    let hours0 := parseIntDigits hd
    let hours := if pm ∧ hours0 ≠ 12 then hours0 + 12
      else if ¬pm ∧ hours0 = 12 then 0 else hours0
    datePart ++ str "T" ++ pad2 hours ++ str ":" ++ mins ++ str ":00-06:00"

/-- The request body built for each event inside `handleAddAllToCalendar`
(lines 122-131); textually the same construction as the single-event path. -/
def mkPayload (env : JsDateEnv) (organizationName curatedByText email : List Char)
    (event : CalendarEvent) : InvitePayload :=
  { email := email
    title := str "[" ++ organizationName ++ str "] " ++ event.title
    date := formatDateTime env event.date event.time
    location := event.location
    description := mkDescription curatedByText organizationName
      event.description event.originalLink
    url := event.originalLink }

/-- `results.filter((r) => r.status === 'fulfilled').length`: the count the
bulk path derives from `Promise.allSettled` — it counts settled-fulfilled
promises and never consults `response.ok`. -/
def succeededCount (results : List SettleResult) : Nat :=
  (results.filter (fun r => match r with | .fulfilled _ => true | .rejected => false)).length

/-- The aggregate report of lines 136-151: if at least one promise was
fulfilled, success with the pluralized message; otherwise the thrown error
is caught and the generic retry message is reported. -/
def bulkReport (email : List Char) (results : List SettleResult) : Bool × List Char :=
  let succeeded := succeededCount results
  if succeeded > 0 then
    (true, natDigits succeeded ++ str " calendar invite" ++
      (if succeeded > 1 then str "s" else []) ++ str " sent to " ++ email ++ str "!")
  else
    (false, str "Failed to add events to calendar. Please try again.")

/-- The observable effect of one `handleAddAllToCalendar` invocation. -/
structure BulkDispatch where
  requests : List InvitePayload
  outcome : Option (Bool × List Char)
deriving DecidableEq, Repr

/-- `handleAddAllToCalendar`: a no-op unless `isValid`, not `isAdding`, and
the batch is non-empty; otherwise one POST per event is issued concurrently,
all promises are settled, and the aggregate is reported. -/
def handleAddAllToCalendar (env : JsDateEnv) (organizationName curatedByText email : List Char)
    (isValid isAdding : Bool) (events : List CalendarEvent)
    (results : List SettleResult) : BulkDispatch :=
  if !isValid || isAdding || events.isEmpty then ⟨[], none⟩
  else
    ⟨events.map (mkPayload env organizationName curatedByText email),
      some (bulkReport email results)⟩

end DeSilo.CalendarEventRenderer

namespace DeSilo

/-- A fixed ambient environment for concrete evaluations: the generic date
parser accepts nothing and the current date is 2026-10-12. -/
def envFixed : JsDateEnv := ⟨fun _ => none, ⟨2026, 10, 12⟩⟩

/-- A concrete event fixture. -/
def evA : CalendarEvent :=
  ⟨str "Kickoff", str "2025-03-05", str "2:30 PM", str "HQ", str "All hands", str "http://x/e1"⟩

/-- A second concrete event fixture. -/
def evB : CalendarEvent :=
  ⟨str "Review", str "2025-03-05", str "14:30", str "HQ", str "Sprint review", str "http://x/e2"⟩

/-- A third concrete event fixture. -/
def evC : CalendarEvent :=
  ⟨str "Demo", str "2025-01-01", str "12:00 PM", str "Lab", str "Demo day", str "http://x/e3"⟩

/-- A concrete event fixture without an original link. -/
def evNoLink : CalendarEvent :=
  ⟨str "Standup", str "2025-03-05", str "9:15 AM", str "Room 1", str "Daily sync", []⟩

/-- Modelled from the spec: the description the specification predicts when
`originalLink` is absent — the attribution line, a blank line, and the
record's description, with the trailing link segment omitted entirely and no
empty text artifacts left behind. -/
def specNoArtifactDescription (curatedByText organizationName desc : List Char) : List Char :=
  byText curatedByText organizationName ++ str "\n\n" ++ desc

/-- Modelled from the spec: whether a string has the fixed zero-padded shape
`YYYY-MM-DDTHH:MM:SS` suffixed with the hardcoded `-06:00` offset. -/
def specCanonicalShape (s : List Char) : Bool :=
  match s with
  | [y1, y2, y3, y4, c1, m1, m2, c2, d1, d2, ct, h1, h2, c3, n1, n2, c4, s1, s2,
     o1, o2, o3, o4, o5, o6] =>
    y1.isDigit && y2.isDigit && y3.isDigit && y4.isDigit && c1 == '-' &&
    m1.isDigit && m2.isDigit && c2 == '-' && d1.isDigit && d2.isDigit &&
    ct == 'T' && h1.isDigit && h2.isDigit && c3 == ':' && n1.isDigit && n2.isDigit &&
    c4 == ':' && s1.isDigit && s2.isDigit &&
    o1 == '-' && o2 == '0' && o3 == '6' && o4 == ':' && o5 == '0' && o6 == '0'
  | _ => false

/-- No nonempty suffix of `a` is the beginning of a case-sensitive match of
`pat`, whatever text follows `a`: every nonempty suffix differs from the
corresponding prefix of `pat`. -/
def csStartFree (pat a : List Char) : Bool :=
  a.tails.all (fun sfx => sfx.isEmpty || !ParseEvents.csPrefix (pat.take sfx.length) sfx)

/-- The case-insensitive analogue of `csStartFree`. -/
def ciStartFree (pat a : List Char) : Bool :=
  a.tails.all (fun sfx => sfx.isEmpty || !ParseEvents.ciPrefix (pat.take sfx.length) sfx)

/-- `pat` has no case-sensitive occurrence inside `v`. -/
def csOccFree (pat v : List Char) : Bool :=
  v.tails.all (fun sfx => !ParseEvents.csPrefix pat sfx)

/-- `pat` has no case-insensitive occurrence inside `v`. -/
def ciOccFree (pat v : List Char) : Bool :=
  v.tails.all (fun sfx => !ParseEvents.ciPrefix pat sfx)

/-- A field value is well formed when it stays on its line (no line
terminators), its trimmed text is non-empty, and it contains no
case-insensitive occurrence of a field-name-and-colon and no closing
marker.  Ordinary values such as `2:30 PM` or `2025-03-05` satisfy this. -/
def valueOk (v : List Char) : Bool :=
  v.all (fun c => !jsLineTerm c) && !(ParseEvents.jsTrim v).isEmpty &&
  ciOccFree (str "title:") v && ciOccFree (str "date:") v &&
  ciOccFree (str "time:") v && ciOccFree (str "location:") v &&
  ciOccFree (str "description:") v && ciOccFree (str "originalLink:") v &&
  csOccFree (str "---END-EVENTS---") v && csOccFree (str "---END-EVENT---") v

/-- Surrounding text is well formed when no suffix of it can begin an
opening-marker match. -/
def outerOk (s : List Char) : Bool :=
  csStartFree (str "---EVENTS---") s && csStartFree (str "---EVENT---") s

/-- A concrete, fully populated input text for the parser. -/
def c3content : List Char :=
  str "---EVENT---\ntitle: A\ndate: B\ntime: C\n---END-EVENT---"

/-- The record the parser extracts from `c3content`. -/
def c3event : ParseEvents.ParsedEvent := ⟨['A'], ['B'], ['C'], [], [], []⟩

/-- The five field names the extractor scans for after `title`.  `title`
itself is handled separately, because the split cuts each entry exactly at
its occurrence. -/
inductive FieldTag where
  | date
  | time
  | location
  | description
  | originalLink
deriving DecidableEq, Repr

/-- The field name as `entryToEvent` passes it to `extractField`. -/
def tagField : FieldTag → List Char
  | .date => str "date"
  | .time => str "time"
  | .location => str "location"
  | .description => str "description"
  | .originalLink => str "originalLink"

/-- The field name followed by the colon: the pattern the scan matches. -/
def tagPat : FieldTag → List Char
  | .date => str "date:"
  | .time => str "time:"
  | .location => str "location:"
  | .description => str "description:"
  | .originalLink => str "originalLink:"

/-- The text of one field line up to its value: line break aside, the name,
the colon and one space. -/
def tagLabel : FieldTag → List Char
  | .date => str "date: "
  | .time => str "time: "
  | .location => str "location: "
  | .description => str "description: "
  | .originalLink => str "originalLink: "

/-- The field lines following the title line: one `name: value` line per
list entry, in the given order, closed by a final line break. -/
def linesOf : List (FieldTag × List Char) → List Char
  | [] => ['\n']
  | (f, v) :: rest => '\n' :: (tagLabel f ++ (v ++ linesOf rest))

/-- The first line carrying tag `g`: its value and the lines after it. -/
def lookupTag (g : FieldTag) : List (FieldTag × List Char) →
    Option (List Char × List (FieldTag × List Char))
  | [] => none
  | (f, v) :: rest => if f = g then some (v, rest) else lookupTag g rest

/-- Whether some line carries tag `g`. -/
def hasTag (g : FieldTag) (fs : List (FieldTag × List Char)) : Bool :=
  (lookupTag g fs).isSome

/-- The field value the extractor produces for tag `g`: the trimmed value of
the first `g` line, or the empty string when the block has no such line. -/
def fieldValue (g : FieldTag) (fs : List (FieldTag × List Char)) : List Char :=
  match lookupTag g fs with
  | none => []
  | some (v, _) => ParseEvents.jsTrim v

/-- A well-formed block body: a title line followed by field lines in any
order and number. -/
def gBody (t : List Char) (fs : List (FieldTag × List Char)) : List Char :=
  str "\ntitle: " ++ (t ++ linesOf fs)

/-- The single candidate entry of `gBody`: the block content from the
`title:` occurrence on. -/
def gEntry (t : List Char) (fs : List (FieldTag × List Char)) : List Char :=
  str "title: " ++ (t ++ linesOf fs)

/-- The two spellings the opening marker alternation `---EVENTS?---`
accepts. -/
def openStr : Bool → List Char
  | false => str "---EVENT---"
  | true => str "---EVENTS---"

/-- The two spellings the closing marker alternation `---END-EVENTS?---`
accepts. -/
def closeStr : Bool → List Char
  | false => str "---END-EVENT---"
  | true => str "---END-EVENTS---"

/-- A text with exactly one complete delimited block, under either spelling
of either marker. -/
def gText (op cl : Bool) (pre body post : List Char) : List Char :=
  pre ++ (openStr op ++ (body ++ (closeStr cl ++ post)))

/-- A concrete field-line list: out of source order, with `description` and
`originalLink` absent. -/
def c4fs : List (FieldTag × List Char) :=
  [(FieldTag.time, str "2:30 PM"), (FieldTag.date, str "2025-03-05"),
   (FieldTag.location, str "Room 1")]

/-- The meridiem conversion of lines 99-100 of the source: `PM` with hour
not 12 adds 12, `AM` with hour 12 becomes 0, anything else is unchanged. -/
def meridiemHour (h : Nat) (pm : Bool) : Nat :=
  if pm ∧ h ≠ 12 then h + 12 else if ¬pm ∧ h = 12 then 0 else h

end DeSilo

namespace DeSilo

/-- A successful prefix test exhibits the subject as pattern plus remainder. -/
theorem csPrefix_exists (pat : List Char) :
    ∀ s, ParseEvents.csPrefix pat s = true → ∃ t, pat ++ t = s := by
  induction pat with
  | nil => intro s _; exact ⟨s, rfl⟩
  | cons p ps ih =>
    intro s h
    cases s with
    | nil => simp [ParseEvents.csPrefix] at h
    | cons c cs =>
      simp only [ParseEvents.csPrefix, Bool.and_eq_true, beq_iff_eq] at h
      obtain ⟨rfl, h2⟩ := h
      obtain ⟨t, ht⟩ := ih cs h2
      exact ⟨t, by rw [List.cons_append, ht]⟩

/-- Every successful `findMarker` result decomposes its input: the text is
the prefix, then the found marker, then the remainder. -/
theorem findMarker_eq (ms : List (List Char)) :
    ∀ s pre m post, ParseEvents.findMarker ms s = some (pre, m, post) →
      s = pre ++ m ++ post := by
  intro s
  induction s with
  | nil => intro pre m post h; simp [ParseEvents.findMarker] at h
  | cons c cs ih =>
    intro pre m post h
    unfold ParseEvents.findMarker at h
    rcases hf : ms.find? (fun pt => ParseEvents.csPrefix pt (c :: cs)) with _ | m'
    · rw [hf] at h
      rcases hr : ParseEvents.findMarker ms cs with _ | ⟨p', m', q'⟩
      · rw [hr] at h; exact absurd h (by simp)
      · rw [hr] at h
        obtain ⟨rfl, rfl, rfl⟩ : c :: p' = pre ∧ m' = m ∧ q' = post := by
          injection h with h'
          injection h' with h1 h2
          injection h2 with h2 h3
          exact ⟨h1, h2, h3⟩
        have := ih p' m' q' hr
        simp [this, List.append_assoc]
    · rw [hf] at h
      obtain ⟨rfl, rfl, rfl⟩ : pre = [] ∧ m' = m ∧ (c :: cs).drop m'.length = post := by
        injection h with h'
        injection h' with h1 h2
        injection h2 with h2 h3
        exact ⟨h1.symm, h2, h3⟩
      have hpre : ParseEvents.csPrefix m' (c :: cs) = true := by
        have := List.find?_some hf
        simpa using this
      obtain ⟨t, ht⟩ := csPrefix_exists m' (c :: cs) hpre
      rw [← ht, List.drop_left]
      simp

/-- Reassembling the span decomposition returns the original text. -/
theorem blockSpansGo_rebuild :
    ∀ fuel s, ParseEvents.spansRebuild (ParseEvents.blockSpansGo fuel s) = s := by
  intro fuel
  induction fuel with
  | zero => intro s; rfl
  | succ n ih =>
    intro s
    rcases h1 : ParseEvents.findMarker ParseEvents.openMarkers s with _ | ⟨pre, m1, rest⟩
    · simp [ParseEvents.blockSpansGo, h1, ParseEvents.spansRebuild]
    · rcases h2 : ParseEvents.findMarker ParseEvents.closeMarkers rest with _ | ⟨content, m2, rest2⟩
      · simp [ParseEvents.blockSpansGo, h1, h2, ParseEvents.spansRebuild]
      · have e1 := findMarker_eq _ _ _ _ _ h1
        have e2 := findMarker_eq _ _ _ _ _ h2
        simp only [ParseEvents.blockSpansGo, h1, h2]
        have hr : ParseEvents.spansRebuild
            ((pre, m1 ++ content ++ m2) :: (ParseEvents.blockSpansGo n rest2).1,
              (ParseEvents.blockSpansGo n rest2).2) =
            pre ++ (m1 ++ content ++ m2) ++
              ParseEvents.spansRebuild (ParseEvents.blockSpansGo n rest2) := rfl
        rw [hr, ih, e1, e2]
        simp [List.append_assoc]

/-- `stripGo` deletes exactly the matched spans of the decomposition. -/
theorem stripGo_residue :
    ∀ fuel s, ParseEvents.stripGo fuel s =
      ParseEvents.spansResidue (ParseEvents.blockSpansGo fuel s) := by
  intro fuel
  induction fuel with
  | zero => intro s; rfl
  | succ n ih =>
    intro s
    rcases h1 : ParseEvents.findMarker ParseEvents.openMarkers s with _ | ⟨pre, m1, rest⟩
    · simp [ParseEvents.stripGo, ParseEvents.blockSpansGo, h1, ParseEvents.spansResidue]
    · rcases h2 : ParseEvents.findMarker ParseEvents.closeMarkers rest with _ | ⟨content, m2, rest2⟩
      · simp [ParseEvents.stripGo, ParseEvents.blockSpansGo, h1, h2, ParseEvents.spansResidue]
      · simp only [ParseEvents.stripGo, ParseEvents.blockSpansGo, h1, h2]
        have hr : ParseEvents.spansResidue
            ((pre, m1 ++ content ++ m2) :: (ParseEvents.blockSpansGo n rest2).1,
              (ParseEvents.blockSpansGo n rest2).2) =
            pre ++ ParseEvents.spansResidue (ParseEvents.blockSpansGo n rest2) := rfl
        rw [hr, ih]

/-- When the block pattern has no match, stripping is the identity at any
fuel. -/
theorem stripGo_of_not_hasBlock (s : List Char) (h : ParseEvents.hasBlock s = false) :
    ∀ fuel, ParseEvents.stripGo fuel s = s := by
  intro fuel
  cases fuel with
  | zero => rfl
  | succ n =>
    unfold ParseEvents.hasBlock at h
    rcases h1 : ParseEvents.findMarker ParseEvents.openMarkers s with _ | ⟨pre, m1, rest⟩
    · simp [ParseEvents.stripGo, h1]
    · simp only [h1] at h
      rcases h2 : ParseEvents.findMarker ParseEvents.closeMarkers rest with _ | ⟨content, m2, rest2⟩
      · simp [ParseEvents.stripGo, h1, h2]
      · rw [h2] at h
        simp at h

/-- C7 counterexample: stripping can splice the surrounding text into a new
delimited block, so a second application is not a no-op: on this input the
first application returns a complete block, the second deletes it. -/
theorem claim_C7_counterexample :
    ParseEvents.stripEventBlocks
        (str "---EV---EVENT---x---END-EVENT---ENT---y---END-EVENT---") =
      str "---EVENT---y---END-EVENT---" ∧
    ParseEvents.stripEventBlocks (ParseEvents.stripEventBlocks
        (str "---EV---EVENT---x---END-EVENT---ENT---y---END-EVENT---")) = [] ∧
    ParseEvents.stripEventBlocks (ParseEvents.stripEventBlocks
        (str "---EV---EVENT---x---END-EVENT---ENT---y---END-EVENT---")) ≠
      ParseEvents.stripEventBlocks
        (str "---EV---EVENT---x---END-EVENT---ENT---y---END-EVENT---") := by
  decide

/-- C7 (amended): `stripEventBlocks` removes exactly the matched
marker-bounded spans of its input, leaving the surrounding text unchanged
and in order; a second application is a no-op provided the first
application's output contains no complete delimited block (removal can
otherwise splice the surrounding text into a new block). -/
theorem claim_C7_amended (s : List Char) :
    ParseEvents.spansRebuild (ParseEvents.blockSpans s) = s ∧
    ParseEvents.stripEventBlocks s = ParseEvents.spansResidue (ParseEvents.blockSpans s) ∧
    (ParseEvents.hasBlock (ParseEvents.stripEventBlocks s) = false →
      ParseEvents.stripEventBlocks (ParseEvents.stripEventBlocks s) =
        ParseEvents.stripEventBlocks s) :=
  ⟨blockSpansGo_rebuild _ _, stripGo_residue _ _,
    fun h => stripGo_of_not_hasBlock _ h _⟩

/-- C7 witness: on a text whose stripped form has no residual block, the
second application is a no-op. -/
theorem claim_C7_witness :
    ParseEvents.stripEventBlocks
        (ParseEvents.stripEventBlocks (str "a ---EVENT---x---END-EVENT--- b")) =
      ParseEvents.stripEventBlocks (str "a ---EVENT---x---END-EVENT--- b") :=
  (claim_C7_amended (str "a ---EVENT---x---END-EVENT--- b")).2.2 (by decide)

/-- C3: every record `parseEventsFromContent` returns has non-empty title,
date, and time; and a block all of whose candidate entries fail the
required-field guard contributes zero records, without any error. -/
theorem claim_C3_invariant (content : List Char) :
    (∀ e ∈ ParseEvents.parseEventsFromContent content,
      e.title ≠ [] ∧ e.date ≠ [] ∧ e.time ≠ []) ∧
    (∀ b ∈ ParseEvents.extractBlocksGo content.length content,
      (∀ en ∈ ParseEvents.blockEntries b,
        ParseEvents.keepEvent (ParseEvents.entryToEvent en) = none) →
      ParseEvents.parseBlock b = []) := by
  constructor
  · intro e he
    simp only [ParseEvents.parseEventsFromContent, List.mem_flatMap] at he
    obtain ⟨b, _, he⟩ := he
    simp only [ParseEvents.parseBlock, List.mem_filterMap] at he
    obtain ⟨en, _, hk⟩ := he
    unfold ParseEvents.keepEvent at hk
    split at hk
    next h => injection hk with hk; subst hk; exact h
    next => exact absurd hk (by simp)
  · intro b _ hall
    unfold ParseEvents.parseBlock
    exact List.filterMap_eq_nil_iff.mpr hall

/-- C3 witness: the invariant at a concrete parsed record. -/
theorem claim_C3_witness :
    c3event.title ≠ [] ∧ c3event.date ≠ [] ∧ c3event.time ≠ [] :=
  (claim_C3_invariant c3content).1 c3event (by decide)

/-- Case-insensitive comparison is reflexive. -/
theorem ciEq_refl (a : Char) : ciEq a a = true := by simp [ciEq]

/-- Case-insensitive comparison is symmetric. -/
theorem ciEq_symm (a b : Char) : ciEq a b = ciEq b a := by
  unfold ciEq
  rw [decide_eq_decide]
  exact eq_comm

/-- A prefix match pins down the subject character by character. -/
theorem csPrefix_getElem? (pat : List Char) :
    ∀ s, ParseEvents.csPrefix pat s = true → ∀ (i : Nat), i < pat.length → s[i]? = pat[i]? := by
  induction pat with
  | nil => intro s h i hi; simp at hi
  | cons p ps ih =>
    intro s h i hi
    cases s with
    | nil => simp [ParseEvents.csPrefix] at h
    | cons c cs =>
      simp only [ParseEvents.csPrefix, Bool.and_eq_true, beq_iff_eq] at h
      obtain ⟨rfl, h2⟩ := h
      cases i with
      | zero => simp
      | succ n =>
        simp only [List.getElem?_cons_succ]
        exact ih cs h2 n (by simpa using hi)

/-- A case-insensitive prefix match relates the two strings character by
character. -/
theorem ciPrefix_getElem? (pat : List Char) :
    ∀ s, ParseEvents.ciPrefix pat s = true →
      ∀ (i : Nat) (a b : Char), pat[i]? = some a → s[i]? = some b → ciEq a b = true := by
  induction pat with
  | nil => intro s h i a b ha hb; simp at ha
  | cons p ps ih =>
    intro s h i a b ha hb
    cases s with
    | nil => simp [ParseEvents.ciPrefix] at h
    | cons c cs =>
      simp only [ParseEvents.ciPrefix, Bool.and_eq_true] at h
      cases i with
      | zero =>
        simp only [List.getElem?_cons_zero, Option.some.injEq] at ha hb
        subst ha; subst hb
        exact h.1
      | succ n =>
        simp only [List.getElem?_cons_succ] at ha hb
        exact ih cs h.2 n a b ha hb

/-- A prefix test only inspects the first `pat.length` characters. -/
theorem csPrefix_append_of_le (pat : List Char) :
    ∀ a b, pat.length ≤ a.length → ParseEvents.csPrefix pat (a ++ b) = ParseEvents.csPrefix pat a := by
  induction pat with
  | nil => intro a b h; simp [ParseEvents.csPrefix]
  | cons p ps ih =>
    intro a b h
    cases a with
    | nil => simp at h
    | cons c cs =>
      simp only [List.cons_append, ParseEvents.csPrefix, List.append_eq]
      rw [ih cs b (by simpa using h)]

/-- The case-insensitive analogue of `csPrefix_append_of_le`. -/
theorem ciPrefix_append_of_le (pat : List Char) :
    ∀ a b, pat.length ≤ a.length →
      ParseEvents.ciPrefix pat (a ++ b) = ParseEvents.ciPrefix pat a := by
  induction pat with
  | nil => intro a b h; simp [ParseEvents.ciPrefix]
  | cons p ps ih =>
    intro a b h
    cases a with
    | nil => simp at h
    | cons c cs =>
      simp only [List.cons_append, ParseEvents.ciPrefix, List.append_eq]
      rw [ih cs b (by simpa using h)]

/-- A match that begins inside `w` matches `w` against the corresponding
prefix of the pattern. -/
theorem csPrefix_take (pat : List Char) :
    ∀ w rest, ParseEvents.csPrefix pat (w ++ rest) = true →
      ParseEvents.csPrefix (pat.take w.length) w = true := by
  induction pat with
  | nil => intro w rest h; simp [ParseEvents.csPrefix]
  | cons p ps ih =>
    intro w rest h
    cases w with
    | nil => simp [ParseEvents.csPrefix]
    | cons c cs =>
      simp only [List.cons_append, ParseEvents.csPrefix, Bool.and_eq_true] at h
      simp only [List.length_cons, List.take_succ_cons, ParseEvents.csPrefix, Bool.and_eq_true]
      exact ⟨h.1, ih cs rest h.2⟩

/-- The case-insensitive analogue of `csPrefix_take`. -/
theorem ciPrefix_take (pat : List Char) :
    ∀ w rest, ParseEvents.ciPrefix pat (w ++ rest) = true →
      ParseEvents.ciPrefix (pat.take w.length) w = true := by
  induction pat with
  | nil => intro w rest h; simp [ParseEvents.ciPrefix]
  | cons p ps ih =>
    intro w rest h
    cases w with
    | nil => simp [ParseEvents.ciPrefix]
    | cons c cs =>
      simp only [List.cons_append, ParseEvents.ciPrefix, Bool.and_eq_true] at h
      simp only [List.length_cons, List.take_succ_cons, ParseEvents.ciPrefix, Bool.and_eq_true]
      exact ⟨h.1, ih cs rest h.2⟩

/-- `csStartFree` blocks a match from starting in any nonempty suffix of
`a`, whatever text follows. -/
theorem csStartFree_blocks (pat a : List Char) (hfree : csStartFree pat a = true) :
    ∀ sfx rest, sfx <:+ a → sfx ≠ [] → ParseEvents.csPrefix pat (sfx ++ rest) = false := by
  intro sfx rest hs hn
  have hchk := (List.all_eq_true.mp hfree) sfx ((List.mem_tails _ _).mpr hs)
  have hie : sfx.isEmpty = false := by
    cases sfx with
    | nil => exact absurd rfl hn
    | cons _ _ => rfl
  rw [hie, Bool.false_or, Bool.not_eq_true'] at hchk
  by_cases hlen : pat.length ≤ sfx.length
  · rw [csPrefix_append_of_le pat sfx rest hlen]
    rwa [List.take_of_length_le hlen] at hchk
  · cases hc : ParseEvents.csPrefix pat (sfx ++ rest) with
    | false => rfl
    | true =>
      have := csPrefix_take pat sfx rest hc
      rw [this] at hchk
      exact absurd hchk (by simp)

/-- `ciStartFree` blocks a case-insensitive match from starting in any
nonempty suffix of `a`, whatever text follows. -/
theorem ciStartFree_blocks (pat a : List Char) (hfree : ciStartFree pat a = true) :
    ∀ sfx rest, sfx <:+ a → sfx ≠ [] → ParseEvents.ciPrefix pat (sfx ++ rest) = false := by
  intro sfx rest hs hn
  have hchk := (List.all_eq_true.mp hfree) sfx ((List.mem_tails _ _).mpr hs)
  have hie : sfx.isEmpty = false := by
    cases sfx with
    | nil => exact absurd rfl hn
    | cons _ _ => rfl
  rw [hie, Bool.false_or, Bool.not_eq_true'] at hchk
  by_cases hlen : pat.length ≤ sfx.length
  · rw [ciPrefix_append_of_le pat sfx rest hlen]
    rwa [List.take_of_length_le hlen] at hchk
  · cases hc : ParseEvents.ciPrefix pat (sfx ++ rest) with
    | false => rfl
    | true =>
      have := ciPrefix_take pat sfx rest hc
      rw [this] at hchk
      exact absurd hchk (by simp)

/-- `csOccFree` in suffix form. -/
theorem csOccFree_spec (pat v : List Char) (h : csOccFree pat v = true) :
    ∀ sfx, sfx <:+ v → ParseEvents.csPrefix pat sfx = false := by
  intro sfx hs
  have := (List.all_eq_true.mp h) sfx ((List.mem_tails _ _).mpr hs)
  rwa [Bool.not_eq_true'] at this

/-- `ciOccFree` in suffix form. -/
theorem ciOccFree_spec (pat v : List Char) (h : ciOccFree pat v = true) :
    ∀ sfx, sfx <:+ v → ParseEvents.ciPrefix pat sfx = false := by
  intro sfx hs
  have := (List.all_eq_true.mp h) sfx ((List.mem_tails _ _).mpr hs)
  rwa [Bool.not_eq_true'] at this

/-- A case-sensitive prefix match is in particular a case-insensitive one. -/
theorem csPrefix_imp_ciPrefix (pat : List Char) :
    ∀ s, ParseEvents.csPrefix pat s = true → ParseEvents.ciPrefix pat s = true := by
  induction pat with
  | nil => intro s h; rfl
  | cons p ps ih =>
    intro s h
    cases s with
    | nil => simp [ParseEvents.csPrefix] at h
    | cons c cs =>
      simp only [ParseEvents.csPrefix, Bool.and_eq_true, beq_iff_eq] at h
      obtain ⟨rfl, h2⟩ := h
      simp only [ParseEvents.ciPrefix, Bool.and_eq_true]
      exact ⟨ciEq_refl p, ih cs h2⟩

/-- `ciOccFree` rules out case-sensitive occurrences too. -/
theorem ciOccFree_imp_cs (pat v : List Char) (h : ciOccFree pat v = true) :
    ∀ sfx, sfx <:+ v → ParseEvents.csPrefix pat sfx = false := by
  intro sfx hs
  cases hc : ParseEvents.csPrefix pat sfx with
  | false => rfl
  | true =>
    have h1 := csPrefix_imp_ciPrefix pat sfx hc
    rw [ciOccFree_spec pat v h sfx hs] at h1
    exact absurd h1 (by simp)

/-- With occurrence-freeness inside `v` and a line terminator as the next
character, no case-sensitive match of a terminator-free pattern can start in
a nonempty suffix of `v`. -/
theorem blocked_cs_nl (pat v rest rest' : List Char) (hr : rest = '\n' :: rest')
    (hnl : '\n' ∉ pat) (hocc : ∀ sfx, sfx <:+ v → ParseEvents.csPrefix pat sfx = false) :
    ∀ sfx, sfx <:+ v → sfx ≠ [] → ParseEvents.csPrefix pat (sfx ++ rest) = false := by
  intro sfx hs _
  by_cases hlen : pat.length ≤ sfx.length
  · rw [csPrefix_append_of_le pat sfx rest hlen]
    exact hocc sfx hs
  · cases hc : ParseEvents.csPrefix pat (sfx ++ rest) with
    | false => rfl
    | true =>
      exfalso
      push_neg at hlen
      have hidx := csPrefix_getElem? pat (sfx ++ rest) hc sfx.length hlen
      rw [List.getElem?_append_right (le_refl _)] at hidx
      simp only [Nat.sub_self, hr, List.getElem?_cons_zero] at hidx
      have hpat : pat[sfx.length]? = some '\n' := hidx.symm
      have hm : '\n' ∈ pat := by
        obtain ⟨hlt, hEq⟩ := List.getElem?_eq_some.mp hpat
        exact hEq ▸ List.getElem_mem _
      exact hnl hm

/-- The case-insensitive analogue of `blocked_cs_nl`. -/
theorem blocked_ci_nl (pat v rest rest' : List Char) (hr : rest = '\n' :: rest')
    (hnl : ∀ x ∈ pat, ciEq x '\n' = false)
    (hocc : ∀ sfx, sfx <:+ v → ParseEvents.ciPrefix pat sfx = false) :
    ∀ sfx, sfx <:+ v → sfx ≠ [] → ParseEvents.ciPrefix pat (sfx ++ rest) = false := by
  intro sfx hs _
  by_cases hlen : pat.length ≤ sfx.length
  · rw [ciPrefix_append_of_le pat sfx rest hlen]
    exact hocc sfx hs
  · cases hc : ParseEvents.ciPrefix pat (sfx ++ rest) with
    | false => rfl
    | true =>
      exfalso
      push_neg at hlen
      have ha : pat[sfx.length]? = some (pat.get ⟨sfx.length, hlen⟩) := by
        simp [List.getElem?_eq_getElem hlen]
      have hb : (sfx ++ rest)[sfx.length]? = some '\n' := by
        rw [List.getElem?_append_right (le_refl _)]
        simp [Nat.sub_self, hr]
      have h2 := ciPrefix_getElem? pat (sfx ++ rest) hc sfx.length _ '\n' ha hb
      have h3 : ciEq (pat.get ⟨sfx.length, hlen⟩) '\n' = false :=
        hnl _ (List.get_mem pat sfx.length hlen)
      rw [h3] at h2
      exact absurd h2 (by simp)

/-- Scanning for a case-insensitive occurrence skips over a region in which
no match can start. -/
theorem findCIRest_skip (pat v rest : List Char)
    (hblock : ∀ sfx, sfx <:+ v → sfx ≠ [] → ParseEvents.ciPrefix pat (sfx ++ rest) = false) :
    ParseEvents.findCIRest pat (v ++ rest) = ParseEvents.findCIRest pat rest := by
  induction v with
  | nil => rfl
  | cons c v' ih =>
    have hc : ParseEvents.ciPrefix pat (c :: (v' ++ rest)) = false := by
      have := hblock (c :: v') (List.suffix_refl _) (by simp)
      rwa [List.cons_append] at this
    rw [List.cons_append]
    simp only [ParseEvents.findCIRest, hc]
    simp only [Bool.false_eq_true, if_false]
    exact ih (fun sfx hs hn => hblock sfx (hs.trans (List.suffix_cons c v')) hn)

/-- A pattern occurrence at the current position is found, and the scanner
returns exactly the text after it. -/
theorem ciPrefix_self_append (pat Y : List Char) :
    ParseEvents.ciPrefix pat (pat ++ Y) = true := by
  induction pat with
  | nil => rfl
  | cons p ps ih =>
    simp only [List.cons_append, ParseEvents.ciPrefix, Bool.and_eq_true]
    exact ⟨ciEq_refl p, ih⟩

/-- `findCIRest` at an exact occurrence. -/
theorem findCIRest_hit (pat Y : List Char) (hne : pat ≠ []) :
    ParseEvents.findCIRest pat (pat ++ Y) = some Y := by
  cases pat with
  | nil => exact absurd rfl hne
  | cons p ps =>
    rw [List.cons_append]
    simp only [ParseEvents.findCIRest]
    rw [if_pos]
    · rw [show (p :: (ps ++ Y)).drop (p :: ps).length = Y by
        simp [List.length_cons, List.drop_succ_cons, List.drop_left]]
    · rw [← List.cons_append]
      exact ciPrefix_self_append (p :: ps) Y

/-- `findCIRest` finds nothing in a region where no match can start. -/
theorem findCIRest_none_of_blocked (pat s : List Char)
    (hblock : ∀ sfx, sfx <:+ s → sfx ≠ [] → ParseEvents.ciPrefix pat sfx = false) :
    ParseEvents.findCIRest pat s = none := by
  have h := findCIRest_skip pat s []
    (fun sfx hs hn => by rw [List.append_nil]; exact hblock sfx hs hn)
  rw [List.append_nil] at h
  exact h

/-- The marker scanner skips over a region in which no marker match can
start, prefixing the eventual result with that region. -/
theorem findMarker_skip (ms : List (List Char)) (v rest : List Char)
    (hblock : ∀ sfx, sfx <:+ v → sfx ≠ [] → ∀ m ∈ ms, ParseEvents.csPrefix m (sfx ++ rest) = false) :
    ParseEvents.findMarker ms (v ++ rest) =
      (ParseEvents.findMarker ms rest).map (fun x => (v ++ x.1, x.2.1, x.2.2)) := by
  induction v with
  | nil =>
    cases h : ParseEvents.findMarker ms rest with
    | none => simp [h]
    | some x => obtain ⟨a, b, c⟩ := x; simp [h]
  | cons c v' ih =>
    have hfind : ms.find? (fun pt => ParseEvents.csPrefix pt (c :: (v' ++ rest))) = none := by
      rw [List.find?_eq_none]
      intro m hm
      have := hblock (c :: v') (List.suffix_refl _) (by simp) m hm
      rw [List.cons_append] at this
      simp [this]
    rw [List.cons_append]
    simp only [ParseEvents.findMarker, hfind]
    rw [ih (fun sfx hs hn => hblock sfx (hs.trans (List.suffix_cons c v')) hn)]
    cases h : ParseEvents.findMarker ms rest with
    | none => simp
    | some x => obtain ⟨a, b, cc⟩ := x; simp

/-- `findMarker` finds nothing in a region where no marker match can start. -/
theorem findMarker_none_of_blocked (ms : List (List Char)) (s : List Char)
    (hblock : ∀ sfx, sfx <:+ s → sfx ≠ [] → ∀ m ∈ ms, ParseEvents.csPrefix m sfx = false) :
    ParseEvents.findMarker ms s = none := by
  have h := findMarker_skip ms s []
    (fun sfx hs hn m hm => by rw [List.append_nil]; exact hblock sfx hs hn m hm)
  rw [List.append_nil] at h
  simpa [ParseEvents.findMarker] using h

/-- The opening marker is matched exactly at its own occurrence. -/
theorem findMarker_open_at (X : List Char) :
    ParseEvents.findMarker ParseEvents.openMarkers (str "---EVENT---" ++ X) =
      some ([], str "---EVENT---", X) := rfl

/-- The closing marker is matched exactly at its own occurrence. -/
theorem findMarker_close_at (X : List Char) :
    ParseEvents.findMarker ParseEvents.closeMarkers (str "---END-EVENT---" ++ X) =
      some ([], str "---END-EVENT---", X) := rfl

/-- Start-blockedness is preserved under concatenation of regions. -/
theorem noStart_append (pat v rest : List Char)
    (h1 : ∀ sfx, sfx <:+ v → sfx ≠ [] → ParseEvents.csPrefix pat (sfx ++ rest) = false)
    (h2 : ∀ sfx, sfx <:+ rest → sfx ≠ [] → ParseEvents.csPrefix pat sfx = false) :
    ∀ sfx, sfx <:+ (v ++ rest) → sfx ≠ [] → ParseEvents.csPrefix pat sfx = false := by
  induction v with
  | nil => simpa using h2
  | cons c v' ih =>
    intro sfx hs hn
    rw [List.cons_append] at hs
    rcases List.suffix_cons_iff.mp hs with rfl | hs'
    · have := h1 (c :: v') (List.suffix_refl _) (by simp)
      rwa [List.cons_append] at this
    · exact ih (fun s hsv hne => h1 s (hsv.trans (List.suffix_cons c v')) hne) sfx hs' hn

/-- When no `title:` occurrence starts anywhere in the remainder, the split
accumulates it into one final segment. -/
theorem splitBeforeGo_no_cut (pat : List Char) :
    ∀ v acc, (∀ sfx, sfx <:+ v → sfx ≠ [] → ParseEvents.csPrefix pat sfx = false) →
      ParseEvents.splitBeforeGo pat acc v = [acc.reverse ++ v] := by
  intro v
  induction v with
  | nil => intro acc _; simp [ParseEvents.splitBeforeGo]
  | cons c v' ih =>
    intro acc h
    have hc : ParseEvents.csPrefix pat (c :: v') = false := h (c :: v') (List.suffix_refl _) (by simp)
    simp only [ParseEvents.splitBeforeGo, hc, Bool.false_eq_true, if_false]
    rw [ih (c :: acc) (fun sfx hs hn => h sfx (hs.trans (List.suffix_cons c v')) hn)]
    simp

/-- Dropping a leading whitespace run stops inside `l` when `l` keeps a
non-whitespace character. -/
theorem dropWhile_append_ne (p : Char → Bool) (l r : List Char) (h : l.dropWhile p ≠ []) :
    (l ++ r).dropWhile p = l.dropWhile p ++ r := by
  induction l with
  | nil => simp [List.dropWhile] at h
  | cons c l' ih =>
    by_cases hc : p c
    · rw [List.dropWhile_cons_of_pos hc] at h
      rw [List.cons_append, List.dropWhile_cons_of_pos hc, List.dropWhile_cons_of_pos hc]
      exact ih h
    · have hc' : p c = false := by simpa using hc
      rw [List.cons_append, List.dropWhile_cons_of_neg (by simp [hc']),
        List.dropWhile_cons_of_neg (by simp [hc']), List.cons_append]

/-- `dropWhile` is idempotent. -/
theorem dropWhile_idem (p : Char → Bool) (l : List Char) :
    (l.dropWhile p).dropWhile p = l.dropWhile p := by
  induction l with
  | nil => rfl
  | cons c l' ih =>
    by_cases hc : p c
    · rw [List.dropWhile_cons_of_pos hc]; exact ih
    · have hc' : p c = false := by simpa using hc
      rw [List.dropWhile_cons_of_neg (by simp [hc']),
        List.dropWhile_cons_of_neg (by simp [hc'])]

/-- Taking the current line stops exactly at the following line break. -/
theorem takeLine_append_stop (a rest rest' : List Char) (hr : rest = '\n' :: rest')
    (ha : ∀ c ∈ a, jsLineTerm c = false) :
    ParseEvents.takeLine (a ++ rest) = a := by
  induction a with
  | nil =>
    subst hr
    simp [ParseEvents.takeLine, List.takeWhile_cons, show jsLineTerm '\n' = true from rfl]
  | cons c a' ih =>
    have hc : jsLineTerm c = false := ha c (by simp)
    rw [List.cons_append]
    unfold ParseEvents.takeLine
    rw [List.takeWhile_cons_of_pos (by simp [hc])]
    have := ih (fun x hx => ha x (by simp [hx]))
    unfold ParseEvents.takeLine at this
    rw [this]

/-- Trimming is unaffected by first dropping the leading whitespace run. -/
theorem jsTrim_dropWhile (v : List Char) :
    ParseEvents.jsTrim (v.dropWhile jsWs) = ParseEvents.jsTrim v := by
  unfold ParseEvents.jsTrim
  rw [dropWhile_idem]

/-- A string with non-empty trim keeps something after dropping leading
whitespace. -/
theorem dropWhile_ne_of_jsTrim_ne (v : List Char) (h : ParseEvents.jsTrim v ≠ []) :
    v.dropWhile jsWs ≠ [] := by
  intro hnil
  apply h
  unfold ParseEvents.jsTrim
  rw [hnil]
  rfl

/-- The value capture of `extractField`: after the colon, `\s*` greedily
skips whitespace, `(.*)` captures to the end of the line, and the capture is
trimmed — for a value that stays on its line this is exactly the trimmed
value. -/
theorem extractVal (v rest rest' : List Char) (hr : rest = '\n' :: rest')
    (hnl : v.all (fun c => !jsLineTerm c) = true) (hne : ParseEvents.jsTrim v ≠ []) :
    ParseEvents.jsTrim (ParseEvents.takeLine ((' ' :: (v ++ rest)).dropWhile jsWs)) =
      ParseEvents.jsTrim v := by
  have h0 : (' ' :: (v ++ rest)).dropWhile jsWs = (v ++ rest).dropWhile jsWs := by
    rw [List.dropWhile_cons_of_pos (by rfl)]
  rw [h0, dropWhile_append_ne jsWs v rest (dropWhile_ne_of_jsTrim_ne v hne)]
  rw [takeLine_append_stop _ rest rest' hr ?ha]
  · exact jsTrim_dropWhile v
  case ha =>
    intro c hc
    have hcv : c ∈ v := (List.dropWhile_sublist (p := jsWs) (l := v)).subset hc
    have := (List.all_eq_true.mp hnl) c hcv
    rwa [Bool.not_eq_true'] at this

/-- A non-empty list is not empty in the `Bool` sense. -/
theorem isEmpty_false_of_ne (l : List Char) (h : l ≠ []) : l.isEmpty = false := by
  cases l with
  | nil => exact absurd rfl h
  | cons a l' => rfl

/-- Trimming a string whose first character is not whitespace keeps it
non-empty. -/
theorem jsTrim_cons_ne (c : Char) (l : List Char) (hc : jsWs c = false) :
    ParseEvents.jsTrim (c :: l) ≠ [] := by
  unfold ParseEvents.jsTrim
  rw [List.dropWhile_cons_of_neg (by simp [hc])]
  intro h
  have h1 : (c :: l).reverse.dropWhile jsWs = [] := by
    have := congrArg List.reverse h
    simpa using this
  have h2 := List.dropWhile_eq_nil_iff.mp h1 c (by simp)
  rw [hc] at h2
  exact absurd h2 (by simp)

/-- The components of `valueOk`. -/
theorem valueOk_spec (v : List Char) (h : valueOk v = true) :
    v.all (fun c => !jsLineTerm c) = true ∧ ParseEvents.jsTrim v ≠ [] ∧
    ciOccFree (str "title:") v = true ∧ ciOccFree (str "date:") v = true ∧
    ciOccFree (str "time:") v = true ∧ ciOccFree (str "location:") v = true ∧
    ciOccFree (str "description:") v = true ∧ ciOccFree (str "originalLink:") v = true ∧
    csOccFree (str "---END-EVENTS---") v = true ∧ csOccFree (str "---END-EVENT---") v = true := by
  simp only [valueOk, Bool.and_eq_true] at h
  obtain ⟨⟨⟨⟨⟨⟨⟨⟨⟨h1, h2⟩, h3⟩, h4⟩, h5⟩, h6⟩, h7⟩, h8⟩, h9⟩, h10⟩ := h
  refine ⟨h1, ?_, h3, h4, h5, h6, h7, h8, h9, h10⟩
  intro hnil
  rw [hnil] at h2
  simp at h2

/-- Closing markers cannot begin in a well-formed piece of a block body,
whatever follows it. -/
theorem closeBlocked_piece (a rest : List Char)
    (h1 : csStartFree (str "---END-EVENTS---") a = true)
    (h2 : csStartFree (str "---END-EVENT---") a = true) :
    ∀ sfx, sfx <:+ a → sfx ≠ [] → ∀ m ∈ ParseEvents.closeMarkers,
      ParseEvents.csPrefix m (sfx ++ rest) = false := by
  intro sfx hs hn m hm
  have hm' : m = str "---END-EVENTS---" ∨ m = str "---END-EVENT---" := by
    simpa [ParseEvents.closeMarkers] using hm
  rcases hm' with rfl | rfl
  · exact csStartFree_blocks _ a h1 sfx rest hs hn
  · exact csStartFree_blocks _ a h2 sfx rest hs hn

/-- Closing markers cannot begin in a well-formed field value followed by a
line break. -/
theorem closeBlocked_value (v rest rest' : List Char) (hr : rest = '\n' :: rest')
    (hv : valueOk v = true) :
    ∀ sfx, sfx <:+ v → sfx ≠ [] → ∀ m ∈ ParseEvents.closeMarkers,
      ParseEvents.csPrefix m (sfx ++ rest) = false := by
  intro sfx hs hn m hm
  obtain ⟨_, _, _, _, _, _, _, _, h9, h10⟩ := valueOk_spec v hv
  have hm' : m = str "---END-EVENTS---" ∨ m = str "---END-EVENT---" := by
    simpa [ParseEvents.closeMarkers] using hm
  rcases hm' with rfl | rfl
  · exact blocked_cs_nl _ v rest rest' hr (by decide) (csOccFree_spec _ v h9) sfx hs hn
  · exact blocked_cs_nl _ v rest rest' hr (by decide) (csOccFree_spec _ v h10) sfx hs hn

/-- Opening markers cannot begin in well-formed surrounding text, whatever
follows it. -/
theorem openBlocked_outer (s rest : List Char) (h : outerOk s = true) :
    ∀ sfx, sfx <:+ s → sfx ≠ [] → ∀ m ∈ ParseEvents.openMarkers,
      ParseEvents.csPrefix m (sfx ++ rest) = false := by
  intro sfx hs hn m hm
  have hsplit : csStartFree (str "---EVENTS---") s = true ∧
      csStartFree (str "---EVENT---") s = true := by
    simpa [outerOk, Bool.and_eq_true] using h
  have hm' : m = str "---EVENTS---" ∨ m = str "---EVENT---" := by
    simpa [ParseEvents.openMarkers] using hm
  rcases hm' with rfl | rfl
  · exact csStartFree_blocks _ s hsplit.1 sfx rest hs hn
  · exact csStartFree_blocks _ s hsplit.2 sfx rest hs hn

/-- In well-formed surrounding text there is no opening marker at all. -/
theorem openNone_of_outerOk (s : List Char) (h : outerOk s = true) :
    ParseEvents.findMarker ParseEvents.openMarkers s = none := by
  apply findMarker_none_of_blocked
  intro sfx hs hn m hm
  have := openBlocked_outer s [] h sfx hs hn m hm
  rwa [List.append_nil] at this

/-- With no opening marker present, no blocks are extracted at any fuel. -/
theorem extractBlocksGo_nil_of_none (s : List Char)
    (h : ParseEvents.findMarker ParseEvents.openMarkers s = none) :
    ∀ fuel, ParseEvents.extractBlocksGo fuel s = [] := by
  intro fuel
  cases fuel with
  | zero => rfl
  | succ n => simp [ParseEvents.extractBlocksGo, h]

/-- Skipping one `piece ++ value` segment during the case-insensitive field
scan. -/
theorem findCIRest_skip_pv (pat p v rest : List Char) (hfree : ciStartFree pat p = true)
    (hnl : ∀ x ∈ pat, ciEq x '\n' = false) (hocc : ciOccFree pat v = true)
    (rest' : List Char) (hr : rest = '\n' :: rest') :
    ParseEvents.findCIRest pat (p ++ (v ++ rest)) = ParseEvents.findCIRest pat rest := by
  rw [findCIRest_skip pat p _ (fun sfx hs hn => ciStartFree_blocks _ _ hfree sfx _ hs hn),
    findCIRest_skip pat v rest (blocked_ci_nl pat v rest rest' hr hnl (ciOccFree_spec _ _ hocc))]

/-- The field scan matches right after the line break that precedes the
field's own line. -/
theorem findCIRest_line_hit (pat Y : List Char) (hfree : ciStartFree pat (str "\n") = true)
    (hne : pat ≠ []) :
    ParseEvents.findCIRest pat (str "\n" ++ (pat ++ Y)) = some Y := by
  rw [findCIRest_skip pat (str "\n") _ (fun sfx hs hn => ciStartFree_blocks _ _ hfree sfx _ hs hn),
    findCIRest_hit pat Y hne]

/-- Start-blockedness with nothing following. -/
theorem noStart_nil_rest (pat a : List Char) (hfree : csStartFree pat a = true) :
    ∀ sfx, sfx <:+ a → sfx ≠ [] → ParseEvents.csPrefix pat sfx = false := by
  intro sfx hs hn
  have := csStartFree_blocks pat a hfree sfx [] hs hn
  rwa [List.append_nil] at this

/-- Blockedness against a marker set is preserved under concatenation. -/
theorem blockedM_append (ms : List (List Char)) (v1 v2 rest : List Char)
    (h1 : ∀ sfx, sfx <:+ v1 → sfx ≠ [] → ∀ m ∈ ms,
      ParseEvents.csPrefix m (sfx ++ (v2 ++ rest)) = false)
    (h2 : ∀ sfx, sfx <:+ v2 → sfx ≠ [] → ∀ m ∈ ms,
      ParseEvents.csPrefix m (sfx ++ rest) = false) :
    ∀ sfx, sfx <:+ (v1 ++ v2) → sfx ≠ [] → ∀ m ∈ ms,
      ParseEvents.csPrefix m (sfx ++ rest) = false := by
  induction v1 with
  | nil => simpa using h2
  | cons c v' ih =>
    intro sfx hs hn m hm
    rw [List.cons_append] at hs
    rcases List.suffix_cons_iff.mp hs with rfl | hs'
    · have := h1 (c :: v') (List.suffix_refl _) (by simp) m hm
      simpa [List.append_assoc] using this
    · exact ih (fun s hsv hne m' hm' =>
        h1 s (hsv.trans (List.suffix_cons c v')) hne m' hm') sfx hs' hn m hm

/-- The field scan for `title` matches at the start of the entry. -/
theorem scan_title (t R : List Char) :
    ParseEvents.findCIRest (str "title:") (str "title: " ++ (t ++ R)) =
      some (' ' :: (t ++ R)) := by
  rw [show (str "title: " : List Char) ++ (t ++ R) =
    str "title:" ++ (' ' :: (t ++ R)) from rfl]
  exact findCIRest_hit _ _ (by decide)

/-- Splitting a block body before `title:` occurrences yields the leading
line break and the single entry. -/
theorem split_evtBody (G : List Char)
    (hG : ParseEvents.csPrefix (str "title:") ('t' :: G) = true)
    (hnostart : ∀ sfx, sfx <:+ G → sfx ≠ [] → ParseEvents.csPrefix (str "title:") sfx = false) :
    ParseEvents.splitBeforeGo (str "title:") [] ('\n' :: ('t' :: G)) = [['\n'], 't' :: G] := by
  simp only [ParseEvents.splitBeforeGo]
  rw [show ParseEvents.csPrefix (str "title:") ('\n' :: ('t' :: G)) = false from rfl, hG]
  simp only [Bool.false_eq_true, if_false, if_true]
  rw [splitBeforeGo_no_cut _ G ['t'] hnostart]
  simp

/-- C1: evaluating the bulk dispatch at the claim's example batch.  With a
`sendFn` that never throws (all three promises fulfilled) and per-call
outcomes success, failure, success (`response.ok` = true, false, true), the
code counts the three fulfilled promises — not the two successful outcomes —
and reports "3 calendar invites sent", where the claim requires
succeededCount = 2 and a "2 calendar invites" message. -/
theorem claim_C1_code_behavior :
    CalendarEventRenderer.succeededCount
      [SettleResult.fulfilled true, SettleResult.fulfilled false, SettleResult.fulfilled true] = 3 ∧
    (CalendarEventRenderer.handleAddAllToCalendar envFixed (str "DeSilo") [] (str "a@b.co")
        true false [evA, evB, evC]
        [SettleResult.fulfilled true, SettleResult.fulfilled false, SettleResult.fulfilled true]).outcome =
      some (true, str "3 calendar invites sent to a@b.co!") := by
  decide

/-- C2: evaluating the bulk dispatch at a batch where every call's outcome is
failure but no call throws (both promises fulfilled with `response.ok` =
false).  The code still counts two fulfilled promises, so it reports overall
success with "2 calendar invites sent", where the claim requires overall
success = false with the generic retry message. -/
theorem claim_C2_code_behavior :
    (CalendarEventRenderer.handleAddAllToCalendar envFixed (str "DeSilo") [] (str "a@b.co")
        true false [evA, evB]
        [SettleResult.fulfilled false, SettleResult.fulfilled false]).outcome =
      some (true, str "2 calendar invites sent to a@b.co!") ∧
    CalendarEventRenderer.succeededCount
      [SettleResult.fulfilled false, SettleResult.fulfilled false] ≠ 0 := by
  decide

/-- On a strict `YYYY-MM-DD` input the date parser takes the
`new Date(year, month - 1, day)` branch and never consults the ambient date
facilities, so its result does not depend on the environment. -/
theorem parseDate_iso_env (env env' : JsDateEnv) (s : List Char) (h : isoShape s = true) :
    CalendarEventRenderer.parseDate env s = CalendarEventRenderer.parseDate env' s := by
  simp [CalendarEventRenderer.parseDate, h]

/-- `formatDateTime` on a strict `YYYY-MM-DD` date is environment-independent. -/
theorem formatDateTime_iso_env (env env' : JsDateEnv) (date time : List Char)
    (h : isoShape date = true) :
    CalendarEventRenderer.formatDateTime env date time =
      CalendarEventRenderer.formatDateTime env' date time := by
  unfold CalendarEventRenderer.formatDateTime
  rw [parseDate_iso_env env env' date h]

/-- C5: the concrete normalization examples.  12-hour and 24-hour inputs for
2:30 PM both normalize to `2025-03-05T14:30:00-06:00`; 12:00 AM yields hour
component 00 and 12:00 PM yields hour component 12; and an AM hour other
than 12 passes through unchanged. -/
theorem claim_C5_examples (env : JsDateEnv) :
    CalendarEventRenderer.formatDateTime env (str "2025-03-05") (str "2:30 PM") =
      str "2025-03-05T14:30:00-06:00" ∧
    CalendarEventRenderer.formatDateTime env (str "2025-03-05") (str "14:30") =
      str "2025-03-05T14:30:00-06:00" ∧
    CalendarEventRenderer.formatDateTime env (str "2025-01-01") (str "12:00 AM") =
      str "2025-01-01T00:00:00-06:00" ∧
    CalendarEventRenderer.formatDateTime env (str "2025-01-01") (str "12:00 PM") =
      str "2025-01-01T12:00:00-06:00" ∧
    CalendarEventRenderer.formatDateTime env (str "2025-03-05") (str "9:15 AM") =
      str "2025-03-05T09:15:00-06:00" := by
  refine ⟨?_, ?_, ?_, ?_, ?_⟩ <;>
    rw [formatDateTime_iso_env env envFixed _ _ (by decide)] <;> decide

/-- C6 counterexample: the input date `"9999-99-99"` matches the strict
`YYYY-MM-DD` branch, and `new Date(9999, 98, 99)` rolls over to the
five-digit year 10007, so the result does not have the claimed fixed
zero-padded `YYYY-MM-DDTHH:MM:SS-06:00` shape. -/
theorem claim_C6_counterexample :
    CalendarEventRenderer.formatDateTime envFixed (str "9999-99-99") (str "14:30") =
      str "10007-06-07T14:30:00-06:00" ∧
    specCanonicalShape
      (CalendarEventRenderer.formatDateTime envFixed (str "9999-99-99") (str "14:30")) = false := by
  decide

/-- Whatever the tail pattern matches, the captured minutes are exactly two
digits. -/
theorem tryRestTime_mins (s mins : List Char) (pm : Bool)
    (h : tryRestTime s = some (mins, pm)) : mins.length = 2 := by
  unfold tryRestTime at h
  repeat' split at h
  all_goals simp_all
  all_goals obtain ⟨h1, h2⟩ := h
  all_goals subst h1
  all_goals rfl

/-- Whatever position the time pattern matches at, the captured minutes are
exactly two digits. -/
theorem tryTimeAt_mins (s hd mins : List Char) (pm : Bool)
    (h : tryTimeAt s = some (hd, mins, pm)) : mins.length = 2 := by
  unfold tryTimeAt at h
  repeat' split at h
  all_goals simp_all
  all_goals exact tryRestTime_mins _ _ _ (by assumption)

/-- The minutes component of any successful time match is exactly two
digits. -/
theorem timeSearch_mins :
    ∀ s hd mins pm, timeSearch s = some (hd, mins, pm) → mins.length = 2 := by
  intro s
  induction s with
  | nil => intro hd mins pm h; simp [timeSearch] at h
  | cons c cs ih =>
    intro hd mins pm h
    unfold timeSearch at h
    split at h
    next r heq =>
      cases h
      exact tryTimeAt_mins (c :: cs) hd mins pm heq
    next => exact ih hd mins pm h

/-- C6 (amended): `toCanonicalInstant` is total, and its exact result shape
is characterized by the time match.  The date part is always
`String(year)-MM-DD` with the year in full decimal (possibly more than four
digits) and month and day as `padStart(2, "0")` renders them; when the
normalized time string has no hour:minute-AM/PM match the time component is
the midday fallback `12:00:00`, and when it matches, the hour component is
the meridiem-adjusted hour rendered in decimal and left-padded with `0` to
at least two characters (never truncated, so it can have three digits), and
the minute component is the exact two-digit capture. -/
theorem claim_C6_amended (env : JsDateEnv) (date time : List Char) :
    (timeSearch (CalendarEventRenderer.formatDisplayTime time) = none →
      CalendarEventRenderer.formatDateTime env date time =
        intStr (CalendarEventRenderer.parseDate env date).year ++ str "-" ++
          pad2 (CalendarEventRenderer.parseDate env date).month ++ str "-" ++
          pad2 (CalendarEventRenderer.parseDate env date).day ++
          str "T12:00:00-06:00") ∧
    (∀ hd mins pm,
      timeSearch (CalendarEventRenderer.formatDisplayTime time) = some (hd, mins, pm) →
      mins.length = 2 ∧
      CalendarEventRenderer.formatDateTime env date time =
        intStr (CalendarEventRenderer.parseDate env date).year ++ str "-" ++
          pad2 (CalendarEventRenderer.parseDate env date).month ++ str "-" ++
          pad2 (CalendarEventRenderer.parseDate env date).day ++
          str "T" ++ pad2 (meridiemHour (parseIntDigits hd) pm) ++ str ":" ++ mins ++
          str ":00-06:00") := by
  constructor
  · intro h
    simp only [CalendarEventRenderer.formatDateTime, h, List.append_assoc]
  · intro hd mins pm h
    refine ⟨timeSearch_mins _ hd mins pm h, ?_⟩
    simp only [CalendarEventRenderer.formatDateTime, h, meridiemHour, List.append_assoc]

/-- C6 witness: the fallback at a concrete unmatchable time, and the exact
matched shape at an in-pattern time whose adjusted hour needs three
digits. -/
theorem claim_C6_witness :
    (CalendarEventRenderer.formatDateTime envFixed (str "2025-03-05") (str "whenever") =
      str "2025-03-05T12:00:00-06:00") ∧
    (CalendarEventRenderer.formatDateTime envFixed (str "2025-03-05") (str "99:30 PM") =
      str "2025-03-05T111:30:00-06:00") :=
  ⟨((claim_C6_amended envFixed (str "2025-03-05") (str "whenever")).1 (by decide)).trans
      (by decide),
    (((claim_C6_amended envFixed (str "2025-03-05") (str "99:30 PM")).2
      (str "99") (str "30") true (by decide)).2).trans (by decide)⟩

/-- C8 counterexample: when `originalLink` is absent the built description is
the attribution line, a blank line, the record's description, and a trailing
blank line — it is not the claimed artifact-free text that omits the
trailing segment entirely. -/
theorem claim_C8_counterexample :
    mkDescription (str "Curated by X") (str "Org") (str "Details") [] =
      str "Curated by X\n\nDetails\n\n" ∧
    mkDescription (str "Curated by X") (str "Org") (str "Details") [] ≠
      specNoArtifactDescription (str "Curated by X") (str "Org") (str "Details") := by
  decide

/-- C8 (amended): the built description is the attribution line (the
caller-supplied text, or the organization default when absent), a blank
line, the record's description, a blank line, and then the view-original
reference exactly when the link is present; when the link is absent the
reference line is replaced by the empty string, so the two preceding newline
characters remain as a trailing blank line.  Both components build the same
description. -/
theorem claim_C8_amended (env : JsDateEnv) (org ctb email : List Char) (ev : CalendarEvent) :
    ((CalendarButton.mkPayload env org ctb email ev).description =
      byText ctb org ++ str "\n\n" ++ ev.description ++ str "\n\n" ++
        (if ev.originalLink ≠ [] then str "View original event: " ++ ev.originalLink else [])) ∧
    ((CalendarEventRenderer.mkPayload env org ctb email ev).description =
      (CalendarButton.mkPayload env org ctb email ev).description) ∧
    (ev.originalLink = [] →
      (CalendarButton.mkPayload env org ctb email ev).description =
        byText ctb org ++ str "\n\n" ++ ev.description ++ str "\n\n") := by
  refine ⟨rfl, rfl, fun h => ?_⟩
  simp [CalendarButton.mkPayload, mkDescription, h]

/-- C8 witness: the absent-link clause at a concrete record. -/
theorem claim_C8_witness :
    (CalendarButton.mkPayload envFixed (str "Org") [] (str "a@b.co") evNoLink).description =
      byText [] (str "Org") ++ str "\n\n" ++ evNoLink.description ++ str "\n\n" :=
  (claim_C8_amended envFixed (str "Org") [] (str "a@b.co") evNoLink).2.2 rfl

/-- C9: with an invalid recipient email (the component keeps
`isValid = validateEmail email`), with a dispatch already in flight, or with
an empty batch on the bulk path, both dispatch handlers perform zero send
calls and produce no outcome. -/
theorem claim_C9_noop (env : JsDateEnv) (org ctb email : List Char) (v isAdding : Bool)
    (events : List CalendarEvent) (results : List SettleResult)
    (event : CalendarEvent) (result : SettleResult) :
    (CalendarEventRenderer.validateEmail email = false →
      CalendarEventRenderer.handleAddAllToCalendar env org ctb email
        (CalendarEventRenderer.validateEmail email) isAdding events results = ⟨[], none⟩) ∧
    (CalendarButton.validateEmail email = false →
      CalendarButton.handleAddToCalendar env org ctb email
        (CalendarButton.validateEmail email) isAdding event result = ⟨none, none⟩) ∧
    (isAdding = true →
      CalendarEventRenderer.handleAddAllToCalendar env org ctb email v isAdding events results =
        ⟨[], none⟩ ∧
      CalendarButton.handleAddToCalendar env org ctb email v isAdding event result =
        ⟨none, none⟩) ∧
    CalendarEventRenderer.handleAddAllToCalendar env org ctb email v isAdding [] results =
      ⟨[], none⟩ := by
  refine ⟨fun h => ?_, fun h => ?_, fun h => ⟨?_, ?_⟩, ?_⟩ <;>
    simp_all [CalendarEventRenderer.handleAddAllToCalendar, CalendarButton.handleAddToCalendar]

/-- C9 witness: the invalid email `"not-an-email"` at concrete states. -/
theorem claim_C9_witness :
    CalendarEventRenderer.handleAddAllToCalendar envFixed (str "DeSilo") [] (str "not-an-email")
      (CalendarEventRenderer.validateEmail (str "not-an-email")) false [evA]
      [SettleResult.fulfilled true] = ⟨[], none⟩ ∧
    CalendarButton.handleAddToCalendar envFixed (str "DeSilo") [] (str "not-an-email")
      (CalendarButton.validateEmail (str "not-an-email")) false evA
      (SettleResult.fulfilled true) = ⟨none, none⟩ :=
  ⟨(claim_C9_noop envFixed (str "DeSilo") [] (str "not-an-email") false false [evA]
      [SettleResult.fulfilled true] evA (SettleResult.fulfilled true)).1 (by decide),
    (claim_C9_noop envFixed (str "DeSilo") [] (str "not-an-email") false false [evA]
      [SettleResult.fulfilled true] evA (SettleResult.fulfilled true)).2.1 (by decide)⟩

/-- C10: the date/time normalization trio is duplicated verbatim in the two
components, so the two copies are extensionally equal and the single-item
and bulk paths produce the identical canonical instant for the same
date/time pair. -/
theorem claim_C10_duplication :
    (∀ env dateStr, CalendarButton.parseDate env dateStr =
      CalendarEventRenderer.parseDate env dateStr) ∧
    (∀ timeStr, CalendarButton.formatDisplayTime timeStr =
      CalendarEventRenderer.formatDisplayTime timeStr) ∧
    (∀ env date time, CalendarButton.formatDateTime env date time =
      CalendarEventRenderer.formatDateTime env date time) :=
  ⟨fun _ _ => rfl, fun _ => rfl, fun _ _ _ => rfl⟩

end DeSilo

namespace DeSilo

/-- A field-line list always begins with its line break. -/
theorem linesOf_head (fs : List (FieldTag × List Char)) :
    ∃ r, linesOf fs = '\n' :: r := by
  cases fs with
  | nil => exact ⟨[], rfl⟩
  | cons p rest =>
    obtain ⟨f, v⟩ := p
    exact ⟨tagLabel f ++ (v ++ linesOf rest), rfl⟩

/-- No field pattern contains a line break. -/
theorem tagPat_nl (g : FieldTag) : ∀ x ∈ tagPat g, ciEq x '\n' = false := by
  cases g <;> decide

/-- No field pattern can begin inside the title label. -/
theorem titleFree_pat (g : FieldTag) : ciStartFree (tagPat g) (str "title: ") = true := by
  cases g <;> decide

/-- A field pattern cannot begin inside the line break and label of a
different field. -/
theorem tagFree (g f : FieldTag) (hne : f ≠ g) :
    ciStartFree (tagPat g) ('\n' :: tagLabel f) = true := by
  cases g <;> cases f <;> first | exact absurd rfl hne | decide

/-- A pattern match directly after a line break and the pattern itself plus
one space. -/
theorem label_hit (pat X : List Char) (hfree : ciStartFree pat (str "\n") = true)
    (hne : pat ≠ []) :
    ParseEvents.findCIRest pat ('\n' :: ((pat ++ [' ']) ++ X)) = some (' ' :: X) := by
  have h : ('\n' :: ((pat ++ [' ']) ++ X)) = str "\n" ++ (pat ++ (' ' :: X)) := by
    rw [List.append_assoc]
    rfl
  rw [h]
  exact findCIRest_line_hit pat (' ' :: X) hfree hne

/-- The field scan matches right after the field's own label. -/
theorem tagHit (g : FieldTag) (X : List Char) :
    ParseEvents.findCIRest (tagPat g) ('\n' :: (tagLabel g ++ X)) = some (' ' :: X) := by
  have hl : tagLabel g = tagPat g ++ [' '] := by cases g <;> rfl
  rw [hl]
  exact label_hit (tagPat g) X (by cases g <;> decide) (by cases g <;> decide)

/-- The name-and-colon pattern assembled by `extractField`. -/
theorem tagField_cat (g : FieldTag) : tagField g ++ str ":" = tagPat g := by
  cases g <;> rfl

/-- A well-formed value contains no occurrence of any field pattern. -/
theorem valueOk_tag (v : List Char) (h : valueOk v = true) (g : FieldTag) :
    ciOccFree (tagPat g) v = true := by
  obtain ⟨_, _, _, h4, h5, h6, h7, h8, _, _⟩ := valueOk_spec v h
  cases g
  exacts [h4, h5, h6, h7, h8]

/-- A well-formed value contains no occurrence of `title:`. -/
theorem valueOk_title (v : List Char) (h : valueOk v = true) :
    ciOccFree (str "title:") v = true := by
  obtain ⟨_, _, h3, _, _, _, _, _, _, _⟩ := valueOk_spec v h
  exact h3

/-- A well-formed value trims to a non-empty string. -/
theorem valueOk_trim_ne (v : List Char) (h : valueOk v = true) :
    ParseEvents.jsTrim v ≠ [] := by
  obtain ⟨_, h2, _, _, _, _, _, _, _, _⟩ := valueOk_spec v h
  exact h2

/-- A well-formed value stays on its line. -/
theorem valueOk_noterm (v : List Char) (h : valueOk v = true) :
    v.all (fun c => !jsLineTerm c) = true := by
  obtain ⟨h1, _, _, _, _, _, _, _, _, _⟩ := valueOk_spec v h
  exact h1

/-- A successful tag lookup names a line of the list. -/
theorem lookupTag_mem (g : FieldTag) :
    ∀ fs v rest, lookupTag g fs = some (v, rest) → (g, v) ∈ fs := by
  intro fs
  induction fs with
  | nil => intro v rest h; simp [lookupTag] at h
  | cons p tail ih =>
    intro v rest h
    obtain ⟨f, w⟩ := p
    rw [show lookupTag g ((f, w) :: tail) =
      (if f = g then some (w, tail) else lookupTag g tail) from rfl] at h
    split at h
    next hf =>
      cases h
      subst hf
      exact List.mem_cons_self _ _
    next hf => exact List.mem_cons_of_mem _ (ih v rest h)

/-- The field scan over the field lines finds exactly the first line with
the sought tag. -/
theorem findCIRest_linesOf (g : FieldTag) :
    ∀ fs : List (FieldTag × List Char), (∀ p ∈ fs, valueOk p.2 = true) →
      ParseEvents.findCIRest (tagPat g) (linesOf fs) =
        (match lookupTag g fs with
        | none => none
        | some (v, rest) => some (' ' :: (v ++ linesOf rest))) := by
  intro fs
  induction fs with
  | nil =>
    intro _
    have h : ParseEvents.findCIRest (tagPat g) (linesOf []) = none := by
      cases g <;> decide
    simpa [lookupTag] using h
  | cons p tail ih =>
    intro hvals
    obtain ⟨f, v⟩ := p
    by_cases hf : f = g
    · rw [show linesOf ((f, v) :: tail) = '\n' :: (tagLabel f ++ (v ++ linesOf tail)) from rfl,
        hf, tagHit g (v ++ linesOf tail)]
      simp [lookupTag, hf]
    · obtain ⟨r, hr⟩ := linesOf_head tail
      rw [show linesOf ((f, v) :: tail) = ('\n' :: tagLabel f) ++ (v ++ linesOf tail) from rfl,
        findCIRest_skip_pv (tagPat g) ('\n' :: tagLabel f) v (linesOf tail)
          (tagFree g f hf) (tagPat_nl g)
          (valueOk_tag v (hvals (f, v) (List.mem_cons_self _ _)) g) r hr,
        ih (fun q hq => hvals q (List.mem_cons_of_mem _ hq))]
      simp [lookupTag, hf]

/-- `extractField` over a well-formed entry produces exactly the field
value: the trimmed text of the field's first line, or the empty string when
the line is absent. -/
theorem extractField_gEntry (g : FieldTag) (t : List Char)
    (fs : List (FieldTag × List Char)) (ht : valueOk t = true)
    (hvals : ∀ p ∈ fs, valueOk p.2 = true) :
    ParseEvents.extractField (gEntry t fs) (tagField g) = fieldValue g fs := by
  obtain ⟨r, hr⟩ := linesOf_head fs
  simp only [ParseEvents.extractField, gEntry]
  rw [tagField_cat g,
    findCIRest_skip_pv (tagPat g) (str "title: ") t (linesOf fs)
      (titleFree_pat g) (tagPat_nl g) (valueOk_tag t ht g) r hr,
    findCIRest_linesOf g fs hvals]
  cases hl : lookupTag g fs with
  | none => simp [fieldValue, hl]
  | some pr =>
    obtain ⟨v, rest⟩ := pr
    have hv := hvals (g, v) (lookupTag_mem g fs v rest hl)
    obtain ⟨r2, hr2⟩ := linesOf_head rest
    simp only [fieldValue, hl]
    exact extractVal v (linesOf rest) r2 hr2 (valueOk_noterm v hv) (valueOk_trim_ne v hv)

/-- The `title` extraction over a well-formed entry yields the trimmed
title value. -/
theorem extractField_title_g (t : List Char) (fs : List (FieldTag × List Char))
    (ht : valueOk t = true) :
    ParseEvents.extractField (gEntry t fs) (str "title") = ParseEvents.jsTrim t := by
  obtain ⟨r, hr⟩ := linesOf_head fs
  simp only [ParseEvents.extractField, gEntry,
    show (str "title" : List Char) ++ str ":" = str "title:" from rfl]
  rw [scan_title]
  exact extractVal t (linesOf fs) r hr (valueOk_noterm t ht) (valueOk_trim_ne t ht)

/-- Building the candidate record of a well-formed entry: each field is its
looked-up trimmed value, absent fields the empty string. -/
theorem entryToEvent_g (t : List Char) (fs : List (FieldTag × List Char))
    (ht : valueOk t = true) (hvals : ∀ p ∈ fs, valueOk p.2 = true) :
    ParseEvents.entryToEvent (gEntry t fs) =
      ⟨ParseEvents.jsTrim t, fieldValue FieldTag.date fs, fieldValue FieldTag.time fs,
        fieldValue FieldTag.location fs, fieldValue FieldTag.description fs,
        fieldValue FieldTag.originalLink fs⟩ := by
  unfold ParseEvents.entryToEvent
  rw [extractField_title_g t fs ht,
    show (str "date" : List Char) = tagField FieldTag.date from rfl,
    show (str "time" : List Char) = tagField FieldTag.time from rfl,
    show (str "location" : List Char) = tagField FieldTag.location from rfl,
    show (str "description" : List Char) = tagField FieldTag.description from rfl,
    show (str "originalLink" : List Char) = tagField FieldTag.originalLink from rfl,
    extractField_gEntry FieldTag.date t fs ht hvals,
    extractField_gEntry FieldTag.time t fs ht hvals,
    extractField_gEntry FieldTag.location t fs ht hvals,
    extractField_gEntry FieldTag.description t fs ht hvals,
    extractField_gEntry FieldTag.originalLink t fs ht hvals]

/-- The pattern `title:` cannot begin inside a field label. -/
theorem labelTitleFree (f : FieldTag) :
    csStartFree (str "title:") ('\n' :: tagLabel f) = true := by
  cases f <;> decide

/-- No `title:` occurrence starts anywhere inside well-formed field lines. -/
theorem titleNoStart_lines :
    ∀ fs : List (FieldTag × List Char), (∀ p ∈ fs, valueOk p.2 = true) →
      ∀ sfx, sfx <:+ linesOf fs → sfx ≠ [] →
        ParseEvents.csPrefix (str "title:") sfx = false := by
  intro fs
  induction fs with
  | nil =>
    intro _
    exact noStart_nil_rest _ (linesOf []) (by decide)
  | cons p tail ih =>
    intro hvals
    obtain ⟨f, v⟩ := p
    obtain ⟨r, hr⟩ := linesOf_head tail
    have H : ∀ sfx, sfx <:+ (('\n' :: tagLabel f) ++ (v ++ linesOf tail)) → sfx ≠ [] →
        ParseEvents.csPrefix (str "title:") sfx = false := by
      refine noStart_append _ _ _
        (fun sfx hs hn => csStartFree_blocks _ _ (labelTitleFree f) sfx _ hs hn) ?_
      refine noStart_append _ _ _
        (blocked_cs_nl _ v (linesOf tail) r hr (by decide)
          (ciOccFree_imp_cs _ v (valueOk_title v (hvals (f, v) (List.mem_cons_self _ _))))) ?_
      exact ih (fun q hq => hvals q (List.mem_cons_of_mem _ hq))
    exact fun sfx hs hn => H sfx hs hn

/-- No `title:` occurrence starts after the initial cut in a well-formed
entry. -/
theorem titleNoStart_g (t : List Char) (fs : List (FieldTag × List Char))
    (ht : valueOk t = true) (hvals : ∀ p ∈ fs, valueOk p.2 = true) :
    ∀ sfx, sfx <:+ (str "itle: " ++ (t ++ linesOf fs)) → sfx ≠ [] →
      ParseEvents.csPrefix (str "title:") sfx = false := by
  obtain ⟨r, hr⟩ := linesOf_head fs
  refine noStart_append _ _ _
    (fun sfx hs hn => csStartFree_blocks _ _ (by decide) sfx _ hs hn) ?_
  refine noStart_append _ _ _
    (blocked_cs_nl _ t (linesOf fs) r hr (by decide)
      (ciOccFree_imp_cs _ t (valueOk_title t ht))) ?_
  exact titleNoStart_lines fs hvals

/-- Splitting a well-formed block body yields the leading line break and the
single entry. -/
theorem blockEntries_g (t : List Char) (fs : List (FieldTag × List Char))
    (ht : valueOk t = true) (hvals : ∀ p ∈ fs, valueOk p.2 = true) :
    ParseEvents.blockEntries (gBody t fs) = [gEntry t fs] := by
  have hsplit : ParseEvents.splitBeforeGo (str "title:") [] (gBody t fs) =
      [['\n'], gEntry t fs] :=
    split_evtBody (str "itle: " ++ (t ++ linesOf fs)) rfl (titleNoStart_g t fs ht hvals)
  unfold ParseEvents.blockEntries
  rw [hsplit]
  have h1 : (!(ParseEvents.jsTrim ['\n']).isEmpty) = false := by decide
  have h2 : (!(ParseEvents.jsTrim (gEntry t fs)).isEmpty) = true := by
    have hne : ParseEvents.jsTrim (gEntry t fs) ≠ [] :=
      jsTrim_cons_ne 't' _ (by decide)
    rw [isEmpty_false_of_ne _ hne]
    rfl
  simp only [List.filter_cons, List.filter_nil, h1, h2, Bool.false_eq_true,
    eq_self_iff_true, if_true, if_false]

/-- Closing markers cannot begin inside a field label. -/
theorem labelCloseFreeS (f : FieldTag) :
    csStartFree (str "---END-EVENTS---") ('\n' :: tagLabel f) = true := by
  cases f <;> decide

/-- The singular closing marker cannot begin inside a field label. -/
theorem labelCloseFreeE (f : FieldTag) :
    csStartFree (str "---END-EVENT---") ('\n' :: tagLabel f) = true := by
  cases f <;> decide

/-- No closing marker can begin inside well-formed field lines, whatever
follows them. -/
theorem closeBlocked_lines :
    ∀ fs : List (FieldTag × List Char), (∀ p ∈ fs, valueOk p.2 = true) →
      ∀ rest0 : List Char, ∀ sfx, sfx <:+ linesOf fs → sfx ≠ [] →
        ∀ m ∈ ParseEvents.closeMarkers, ParseEvents.csPrefix m (sfx ++ rest0) = false := by
  intro fs
  induction fs with
  | nil =>
    intro _ rest0
    exact closeBlocked_piece (linesOf []) rest0 (by decide) (by decide)
  | cons p tail ih =>
    intro hvals rest0
    obtain ⟨f, v⟩ := p
    obtain ⟨r, hr⟩ := linesOf_head tail
    have hrr : linesOf tail ++ rest0 = '\n' :: (r ++ rest0) := by rw [hr]; rfl
    have H : ∀ sfx, sfx <:+ (('\n' :: tagLabel f) ++ (v ++ linesOf tail)) → sfx ≠ [] →
        ∀ m ∈ ParseEvents.closeMarkers, ParseEvents.csPrefix m (sfx ++ rest0) = false := by
      refine blockedM_append _ _ _ _
        (closeBlocked_piece _ _ (labelCloseFreeS f) (labelCloseFreeE f)) ?_
      refine blockedM_append _ _ _ _
        (closeBlocked_value v (linesOf tail ++ rest0) (r ++ rest0) hrr
          (hvals (f, v) (List.mem_cons_self _ _))) ?_
      exact ih (fun q hq => hvals q (List.mem_cons_of_mem _ hq)) rest0
    exact fun sfx hs hn => H sfx hs hn

/-- No closing marker can begin anywhere inside a well-formed block body. -/
theorem closeBlocked_gBody (t : List Char) (fs : List (FieldTag × List Char))
    (rest0 : List Char) (ht : valueOk t = true)
    (hvals : ∀ p ∈ fs, valueOk p.2 = true) :
    ∀ sfx, sfx <:+ gBody t fs → sfx ≠ [] →
      ∀ m ∈ ParseEvents.closeMarkers, ParseEvents.csPrefix m (sfx ++ rest0) = false := by
  obtain ⟨r, hr⟩ := linesOf_head fs
  have hrr : linesOf fs ++ rest0 = '\n' :: (r ++ rest0) := by rw [hr]; rfl
  unfold gBody
  refine blockedM_append _ _ _ _
    (closeBlocked_piece _ _ (by decide) (by decide)) ?_
  refine blockedM_append _ _ _ _
    (closeBlocked_value t (linesOf fs ++ rest0) (r ++ rest0) hrr ht) ?_
  exact closeBlocked_lines fs hvals rest0

/-- The plural opening marker is matched exactly at its own occurrence. -/
theorem findMarker_openS_at (X : List Char) :
    ParseEvents.findMarker ParseEvents.openMarkers (str "---EVENTS---" ++ X) =
      some ([], str "---EVENTS---", X) := rfl

/-- The plural closing marker is matched exactly at its own occurrence. -/
theorem findMarker_closeS_at (X : List Char) :
    ParseEvents.findMarker ParseEvents.closeMarkers (str "---END-EVENTS---" ++ X) =
      some ([], str "---END-EVENTS---", X) := rfl

/-- The opening-marker scan skips the well-formed preceding text and matches
at either spelling of the opening marker. -/
theorem open_scan_g (op : Bool) (pre X : List Char) (hpre : outerOk pre = true) :
    ParseEvents.findMarker ParseEvents.openMarkers (pre ++ (openStr op ++ X)) =
      some (pre, openStr op, X) := by
  rw [findMarker_skip _ pre _ (openBlocked_outer pre _ hpre)]
  cases op
  · simp only [openStr]
    rw [findMarker_open_at]
    simp
  · simp only [openStr]
    rw [findMarker_openS_at]
    simp

/-- The closing-marker scan passes over a well-formed block body and matches
at either spelling of the closing marker. -/
theorem close_scan_g (cl : Bool) (t : List Char) (fs : List (FieldTag × List Char))
    (post : List Char) (ht : valueOk t = true)
    (hvals : ∀ p ∈ fs, valueOk p.2 = true) :
    ParseEvents.findMarker ParseEvents.closeMarkers (gBody t fs ++ (closeStr cl ++ post)) =
      some (gBody t fs, closeStr cl, post) := by
  rw [findMarker_skip _ (gBody t fs) _ (closeBlocked_gBody t fs _ ht hvals)]
  cases cl
  · simp only [closeStr]
    rw [findMarker_close_at]
    simp
  · simp only [closeStr]
    rw [findMarker_closeS_at]
    simp

/-- Block extraction over a one-block text returns exactly the block body,
at any sufficient fuel and under either marker spelling. -/
theorem extract_g (op cl : Bool) (pre body post : List Char)
    (hpre : outerOk pre = true) (hpost : outerOk post = true)
    (hclose : ParseEvents.findMarker ParseEvents.closeMarkers
        (body ++ (closeStr cl ++ post)) = some (body, closeStr cl, post)) :
    ∀ fuel, ParseEvents.extractBlocksGo (fuel + 1) (gText op cl pre body post) = [body] := by
  intro fuel
  have hopen := open_scan_g op pre (body ++ (closeStr cl ++ post)) hpre
  simp only [gText, ParseEvents.extractBlocksGo, hopen, hclose]
  rw [extractBlocksGo_nil_of_none post (openNone_of_outerOk post hpost) fuel]

/-- The length of a one-block text is a successor. -/
theorem gText_len_succ (op cl : Bool) (pre body post : List Char) :
    (gText op cl pre body post).length = (gText op cl pre body post).length - 1 + 1 := by
  unfold gText
  rw [List.length_append, List.length_append]
  have h : 0 < (openStr op).length := by cases op <;> decide
  omega

/-- A present field's value is non-empty after trimming. -/
theorem fieldValue_ne (g : FieldTag) (fs : List (FieldTag × List Char))
    (hvals : ∀ p ∈ fs, valueOk p.2 = true) (h : hasTag g fs = true) :
    fieldValue g fs ≠ [] := by
  unfold hasTag at h
  cases hl : lookupTag g fs with
  | none => rw [hl] at h; simp at h
  | some pr =>
    obtain ⟨v, rest⟩ := pr
    have hv := hvals (g, v) (lookupTag_mem g fs v rest hl)
    simp only [fieldValue, hl]
    exact valueOk_trim_ne v hv

/-- A well-formed block with its required fields present contributes exactly
one record. -/
theorem parseBlock_g (t : List Char) (fs : List (FieldTag × List Char))
    (ht : valueOk t = true) (hvals : ∀ p ∈ fs, valueOk p.2 = true)
    (hdate : hasTag FieldTag.date fs = true) (htime : hasTag FieldTag.time fs = true) :
    ParseEvents.parseBlock (gBody t fs) =
      [⟨ParseEvents.jsTrim t, fieldValue FieldTag.date fs, fieldValue FieldTag.time fs,
        fieldValue FieldTag.location fs, fieldValue FieldTag.description fs,
        fieldValue FieldTag.originalLink fs⟩] := by
  have hk : ParseEvents.keepEvent ⟨ParseEvents.jsTrim t, fieldValue FieldTag.date fs,
      fieldValue FieldTag.time fs, fieldValue FieldTag.location fs,
      fieldValue FieldTag.description fs, fieldValue FieldTag.originalLink fs⟩ =
      some ⟨ParseEvents.jsTrim t, fieldValue FieldTag.date fs, fieldValue FieldTag.time fs,
        fieldValue FieldTag.location fs, fieldValue FieldTag.description fs,
        fieldValue FieldTag.originalLink fs⟩ := by
    simp [ParseEvents.keepEvent, valueOk_trim_ne t ht,
      fieldValue_ne FieldTag.date fs hvals hdate, fieldValue_ne FieldTag.time fs hvals htime]
  unfold ParseEvents.parseBlock
  rw [blockEntries_g t fs ht hvals]
  simp only [List.filterMap_cons, List.filterMap_nil, entryToEvent_g t fs ht hvals, hk]

/-- C4: on well-formed text containing exactly one complete delimited block
— opened by either `---EVENT---` or `---EVENTS---` and closed by either
`---END-EVENT---` or `---END-EVENTS---` — whose title line is followed by
field lines in any order and number that include `date` and `time`, the
parser returns exactly one record; each field of the record equals the
trimmed literal text after its case-insensitive field-name-and-colon prefix
up to the end of that line, and every field absent from the block is the
empty string, with no error possible. -/
theorem claim_C4 (op cl : Bool) (pre post t : List Char)
    (fs : List (FieldTag × List Char))
    (hpre : outerOk pre = true) (hpost : outerOk post = true)
    (ht : valueOk t = true) (hvals : ∀ p ∈ fs, valueOk p.2 = true)
    (hdate : hasTag FieldTag.date fs = true) (htime : hasTag FieldTag.time fs = true) :
    ParseEvents.parseEventsFromContent (gText op cl pre (gBody t fs) post) =
      [⟨ParseEvents.jsTrim t, fieldValue FieldTag.date fs, fieldValue FieldTag.time fs,
        fieldValue FieldTag.location fs, fieldValue FieldTag.description fs,
        fieldValue FieldTag.originalLink fs⟩] := by
  unfold ParseEvents.parseEventsFromContent
  rw [gText_len_succ op cl pre (gBody t fs) post,
    extract_g op cl pre (gBody t fs) post hpre hpost (close_scan_g cl t fs post ht hvals)]
  simp [parseBlock_g t fs ht hvals hdate htime]

/-- Concrete instance of the C4 hypotheses and conclusion: plural opening
marker, singular closing marker, field lines out of source order, and two
optional fields absent. -/
theorem claim_C4_witness :
    (outerOk (str "Hello! ") = true ∧ outerOk (str " Enjoy.") = true ∧
      valueOk (str "Standup") = true ∧ (∀ p ∈ c4fs, valueOk p.2 = true) ∧
      hasTag FieldTag.date c4fs = true ∧ hasTag FieldTag.time c4fs = true) ∧
    ParseEvents.parseEventsFromContent
        (gText true false (str "Hello! ") (gBody (str "Standup") c4fs) (str " Enjoy.")) =
      [⟨ParseEvents.jsTrim (str "Standup"), fieldValue FieldTag.date c4fs,
        fieldValue FieldTag.time c4fs, fieldValue FieldTag.location c4fs,
        fieldValue FieldTag.description c4fs, fieldValue FieldTag.originalLink c4fs⟩] :=
  ⟨⟨by decide, by decide, by decide, by decide, by decide, by decide⟩,
    claim_C4 true false (str "Hello! ") (str " Enjoy.") (str "Standup") c4fs
      (by decide) (by decide) (by decide) (by decide) (by decide) (by decide)⟩

end DeSilo

